import Mathlib

/-!
# ConfigCreator: a shallow embedding of `src/ConfigCreator.h`

The container keeps one `std::fstream`.  The stream is modelled as a record of the
file's bytes, the single file position a `std::filebuf` has, the three
`iostate` bits and the open mode.  Every member function of `ConfigCreator` and
of `HeaderIterator<T>` is a function from the state before the call to the state
after it, paired with what the call returns or throws.

Conventions

* `uint64_t` is a `Nat` reduced `% 2 ^ 64` wherever the C++ arithmetic can wrap.
* `std::streamoff` / `std::streampos` is an `Int` (`-1` is the failure position).
* A value of a trivially copyable `T` is its object representation, a list of
  `sizeof(T)` bytes; a `std::string` is the list of its bytes.
* The in-memory image of a `uint64_t` is little-endian (the host layout of the
  platforms the program is built for).
-/

namespace vidzhet

/-! ## Bytes and machine integers -/

abbrev Byte := Fin 256

/-- The low byte of a natural number. -/
def byteOf (n : Nat) : Byte := ⟨n % 256, Nat.mod_lt n (by decide)⟩

/-- Object representation of a `uint64_t` (8 bytes, little-endian); the value is
reduced modulo `2 ^ 64` by construction. -/
def le64 (n : Nat) : List Byte :=
  [byteOf n, byteOf (n / 256), byteOf (n / 256 ^ 2), byteOf (n / 256 ^ 3),
   byteOf (n / 256 ^ 4), byteOf (n / 256 ^ 5), byteOf (n / 256 ^ 6), byteOf (n / 256 ^ 7)]

/-- The `uint64_t` whose object representation is the given bytes. -/
def fromLe64 : List Byte → Nat
  | [] => 0
  | b :: bs => b.val + 256 * fromLe64 bs

/-- The conversion `static_cast<uint64_t>(p)` of a stream position. -/
def toU64 (p : Int) : Nat := (p % (2 : Int) ^ 64).toNat

/-- The conversion of a `uint64_t` to `std::streamoff` (a signed 64-bit integer). -/
def toOff (n : Nat) : Int :=
  if n % 2 ^ 64 < 2 ^ 63 then ((n % 2 ^ 64 : Nat) : Int) else ((n % 2 ^ 64 : Nat) : Int) - (2 : Int) ^ 64

/-- The largest size a `std::string` can be asked to take on a 64-bit host
(`PTRDIFF_MAX`); `std::string(n, c)` with a larger `n` throws `std::length_error`. -/
def string_max_size : Nat := 2 ^ 63 - 1

/-- The constant `enum Mode { Read, Write }`. -/
inductive Mode
  | Read
  | Write
  deriving DecidableEq, Repr

/-- What a member function can throw: one constructor per `throw` site of
`ConfigCreator.h`, plus the two ways `std::string(len, 0)` ends abnormally. -/
inductive Error
  /-- Thrown with the message `"Failed to open file"` -/
  | openFailed
  /-- Thrown with the message `"File is not valid"` -/
  | fileNotValid
  /-- Thrown with the message `"Corrupted header (name_size)"` -/
  | corruptedNameSize
  /-- Thrown with the message `"Failed to read header name"` -/
  | failedReadName
  /-- Thrown with the message `"Failed to read header size"` -/
  | failedReadSize
  /-- Thrown with the message `"Not in write mode"` -/
  | notInWriteMode
  /-- Thrown with the message `"Failed to write header name"` -/
  | failedWriteName
  /-- Thrown with the message `"Header not found"` -/
  | headerNotFound
  /-- Thrown with the message `"Corrupted header size"` -/
  | corruptedHeaderSize
  /-- Thrown with the message `"Out of bounds"` -/
  | outOfBounds
  /-- The `std::length_error` thrown by `std::string(len, 0)` for `len` above `string_max_size` -/
  | lengthError
  /-- not an exception: `read()` went on with a `len` the stream never delivered
  (an uninitialised variable); the model stops there -/
  | uninitialisedLength
  deriving DecidableEq, Repr

/-! ## The file stream -/

/-- A `std::fstream` over a file: the file's bytes, the file position, the state
bits, and the mode the file was opened with (`Read` is `ios::in`, `Write` is
`ios::out | ios::trunc`). -/
structure FStream where
  bytes : List Byte
  pos : Nat
  eofbit : Bool
  failbit : Bool
  badbit : Bool
  mode : Mode
  deriving DecidableEq, Repr

namespace FStream

/-- Member `good()`: no state bit is set. -/
def good (f : FStream) : Bool := !f.eofbit && !f.failbit && !f.badbit

/-- Member `fail()`, also `operator!`: `failbit` or `badbit` is set. -/
def fail (f : FStream) : Bool := f.failbit || f.badbit

/-- Member `eof()`. -/
def eof (f : FStream) : Bool := f.eofbit

/-- Member `clear()`: all state bits are reset. -/
def clear (f : FStream) : FStream := { f with eofbit := false, failbit := false, badbit := false }

/-- The file content after `data` is stored at position `p` (a gap past the old end
reads as zero bytes). -/
def overwrite (bytes : List Byte) (p : Nat) (data : List Byte) : List Byte :=
  bytes.take p ++ List.replicate (p - bytes.length) (0 : Byte) ++ data ++ bytes.drop (p + data.length)

/-- Member `write(s, n)`: an unformatted output function.  On a stream that is not good the
sentry fails and nothing is written; on a file opened for input only the buffer
takes no character and `badbit` is set (unless `n = 0`). -/
def write (f : FStream) (data : List Byte) : FStream :=
  if !f.good then { f with failbit := true }
  else if data.isEmpty then f
  else
    match f.mode with
    | .Write => { f with bytes := overwrite f.bytes f.pos data, pos := f.pos + data.length }
    | .Read => { f with badbit := true }

/-- Member `read(s, n)`: an unformatted input function.  Returns the characters stored
into `s`.  On a stream that is not good the sentry sets `failbit` and nothing is
read; when fewer than `n` characters are available `eofbit | failbit` is set. -/
def read (f : FStream) (n : Nat) : List Byte × FStream :=
  if !f.good then ([], { f with failbit := true })
  else
    let got : List Byte :=
      match f.mode with
      | .Read => (f.bytes.drop f.pos).take n
      | .Write => []
    let f1 : FStream := { f with pos := f.pos + got.length }
    if got.length = n then (got, f1)
    else (got, { f1 with eofbit := true, failbit := true })

/-- Member `tellg()`: the file position, or `-1` (with `failbit`) when the stream is not good. -/
def tellg (f : FStream) : Int × FStream :=
  if !f.good then (-1, { f with failbit := true })
  else ((f.pos : Int), f)

/-- Member `tellp()`: the file position, or `-1` when the stream is not good. -/
def tellp (f : FStream) : Int × FStream :=
  if !f.good then (-1, { f with failbit := true })
  else ((f.pos : Int), f)

/-- Member `seekg(pos)`: clears `eofbit`, then moves the file position; a negative
position, or a stream that is not good, sets `failbit`. -/
def seekg (f : FStream) (p : Int) : FStream :=
  let f1 : FStream := { f with eofbit := false }
  if !f1.good then { f1 with failbit := true }
  else if 0 ≤ p then { f1 with pos := p.toNat }
  else { f1 with failbit := true }

/-- Member `seekg(off, std::ios::cur)`: clears `eofbit`, then moves the file position by
`off`; a target outside `[0, 2^63)`, the range of `std::streamoff`, sets `failbit`.
This is the stream on a file system that refuses no smaller offset; `seekgCurWithin`
is the same call on a file system whose largest offset is given. -/
def seekgCur (f : FStream) (off : Int) : FStream :=
  let f1 : FStream := { f with eofbit := false }
  if !f1.good then { f1 with failbit := true }
  else if 0 ≤ (f1.pos : Int) + off ∧ (f1.pos : Int) + off < (2 : Int) ^ 63 then
    { f1 with pos := ((f1.pos : Int) + off).toNat }
  else { f1 with failbit := true }

/-- Member `seekp(pos)`: moves the file position; a negative position, or a stream that
is not good, sets `failbit`. -/
def seekp (f : FStream) (p : Int) : FStream :=
  if !f.good then { f with failbit := true }
  else if 0 ≤ p then { f with pos := p.toNat }
  else { f with failbit := true }

end FStream

/-! ## The container -/

/-- The constant `MAGIC`: the three characters M, G, E. -/
def MAGIC : List Byte := [77, 71, 69]

/-- The `struct HeaderInfo`. -/
structure HeaderInfo where
  name : List Byte
  data_size : Nat
  data_offset : Nat
  deriving DecidableEq, Repr

/-- The template argument `T` of `HeaderIterator<T>`: a trivially copyable type of
`sizeof(T) = w` bytes, or `std::string`. -/
inductive Ty
  | fixed (w : Nat)
  | text
  deriving DecidableEq, Repr

/-- The members of `class ConfigCreator`. -/
structure ConfigCreator where
  file_ : FStream
  mode_ : Mode
  headers_ : List HeaderInfo
  deriving DecidableEq, Repr

/-- The members of `class HeaderIterator<T>` (the stream pointer is the container's
stream, passed to each operation). -/
structure HeaderIterator where
  ty : Ty
  data_start_ : Nat
  data_size_ : Nat
  offset_ : Nat
  write_mode_ : Bool
  size_pos_ : Nat
  deriving DecidableEq, Repr

/-- Member `parse_headers()`: the `while (true)` loop, one iteration per unit of fuel;
`none` when the fuel runs out.  Returns what the function throws (or nothing), the
stream and `headers_` as the function leaves them.  Memory is taken to suffice for
every `std::string` of at most `string_max_size` bytes. -/
def parse_headers : Nat → FStream → List HeaderInfo → Option (Except Error Unit × FStream × List HeaderInfo)
  | 0, _, _ => none
  | fuel + 1, f, hs =>
    let r1 := f.read 8
    if r1.2.fail then
      if r1.2.eof then some (.ok (), r1.2.clear, hs)
      else some (.error .corruptedNameSize, r1.2, hs)
    else
      let name_size := fromLe64 r1.1
      if string_max_size < name_size then some (.error .lengthError, r1.2, hs)
      else
        let r2 := r1.2.read name_size
        if r2.2.fail then some (.error .failedReadName, r2.2, hs)
        else
          let r3 := r2.2.read 8
          if r3.2.fail then some (.error .failedReadSize, r3.2, hs)
          else
            let data_size := fromLe64 r3.1
            let t := r3.2.tellg
            let data_offset := toU64 t.1
            parse_headers fuel (t.2.seekgCur (toOff data_size))
              (hs ++ [{ name := r2.1, data_size := data_size, data_offset := data_offset }])

/-- The constructor `ConfigCreator(filename, mode)`.  `disk` is the content of the
file of that name, if it exists; `fuel` bounds the directory scan. -/
def ConfigCreator.open (disk : Option (List Byte)) (mode : Mode) (fuel : Nat) :
    Option (Except Error ConfigCreator) :=
  match mode with
  | .Write =>
    let f : FStream := { bytes := [], pos := 0, eofbit := false, failbit := false, badbit := false, mode := .Write }
    some (.ok { file_ := f.write MAGIC, mode_ := .Write, headers_ := [] })
  | .Read =>
    match disk with
    | none => some (.error .openFailed)
    | some content =>
      let f : FStream := { bytes := content, pos := 0, eofbit := false, failbit := false, badbit := false, mode := .Read }
      let r := f.read 3
      if r.2.fail || r.1 ≠ MAGIC then some (.error .fileNotValid)
      else
        match parse_headers fuel r.2 [] with
        | none => none
        | some (.error e, _, _) => some (.error e)
        | some (.ok (), f1, hs) => some (.ok { file_ := f1, mode_ := .Read, headers_ := hs })

/-- Member `find_header(name)`: the first entry of `headers_` with that name. -/
def find_header (hs : List HeaderInfo) (name : List Byte) : Option HeaderInfo :=
  match hs with
  | [] => none
  | h :: rest => if h.name = name then some h else find_header rest name

namespace HeaderIterator

/-- The constructor `HeaderIterator(f, a, b, mode)`. -/
def new (ty : Ty) (a b : Nat) (mode : Mode) : HeaderIterator :=
  match mode with
  | .Read => { ty := ty, data_start_ := a, data_size_ := b, offset_ := 0, write_mode_ := false, size_pos_ := 0 }
  | .Write => { ty := ty, data_start_ := b, data_size_ := 0, offset_ := 0, write_mode_ := true, size_pos_ := a }

/-- Member `write(value)`. -/
def write (it : HeaderIterator) (f : FStream) (value : List Byte) : HeaderIterator × FStream :=
  match it.ty with
  | .fixed w => ({ it with offset_ := (it.offset_ + w) % 2 ^ 64 }, f.write value)
  | .text =>
    let len := value.length % 2 ^ 64
    ({ it with offset_ := (it.offset_ + (8 + len)) % 2 ^ 64 }, (f.write (le64 len)).write value)

/-- Member `finalize()`. -/
def finalize (it : HeaderIterator) (f : FStream) : HeaderIterator × FStream :=
  if !it.write_mode_ then (it, f)
  else
    let t := f.tellp
    let end_pos := toU64 t.1
    let data_size := (end_pos + 2 ^ 64 - it.data_start_ % 2 ^ 64) % 2 ^ 64
    let f1 := t.2.seekp (toOff it.size_pos_)
    let f2 := f1.write (le64 data_size)
    let f3 := f2.seekp (toOff end_pos)
    ({ it with data_size_ := data_size, write_mode_ := false }, f3)

/-- Member `next()`. -/
def next (it : HeaderIterator) : Bool := decide (it.offset_ < it.data_size_)

/-- Member `read()`.  The value returned is `none` when the stream delivered fewer than
`sizeof(T)` bytes into the uninitialised `T value` (its content is then
indeterminate). -/
def read (it : HeaderIterator) (f : FStream) : Except Error (Option (List Byte)) × HeaderIterator × FStream :=
  if !it.next then (.error .outOfBounds, it, f)
  else
    let t := f.tellg
    let old_pos := t.1
    match it.ty with
    | .fixed w =>
      let f1 := t.2.seekg (toOff (it.data_start_ + it.offset_))
      let r := f1.read w
      let value := if r.1.length = w then some r.1 else none
      (.ok value, { it with offset_ := (it.offset_ + w) % 2 ^ 64 }, r.2.seekg old_pos)
    | .text =>
      let f1 := t.2.seekg (toOff (it.data_start_ + it.offset_))
      let r := f1.read 8
      if r.1.length ≠ 8 then (.error .uninitialisedLength, it, r.2)
      else
        let len := fromLe64 r.1
        if string_max_size < len then (.error .lengthError, it, r.2)
        else
          let r2 := r.2.read len
          let s := r2.1 ++ List.replicate (len - r2.1.length) (0 : Byte)
          (.ok (some s), { it with offset_ := (it.offset_ + (8 + len)) % 2 ^ 64 }, r2.2.seekg old_pos)

end HeaderIterator

namespace ConfigCreator

/-- Member `addheader<T>(name)`. -/
def addheader (c : ConfigCreator) (ty : Ty) (name : List Byte) : Except Error HeaderIterator × ConfigCreator :=
  if c.mode_ ≠ Mode.Write then (.error .notInWriteMode, c)
  else
    let name_size := name.length % 2 ^ 64
    let f1 := c.file_.write (le64 name_size)
    let f2 := f1.write name
    if f2.fail then (.error .failedWriteName, { c with file_ := f2 })
    else
      let t1 := f2.tellp
      let size_pos := toU64 t1.1
      let f3 := t1.2.write (le64 0)
      let t2 := f3.tellp
      let data_start := toU64 t2.1
      (.ok (HeaderIterator.new ty size_pos data_start Mode.Write), { c with file_ := t2.2 })

/-- Member `header<T>(name)`. -/
def header (c : ConfigCreator) (ty : Ty) (name : List Byte) : Except Error HeaderIterator × ConfigCreator :=
  match find_header c.headers_ name with
  | none => (.error .headerNotFound, c)
  | some h =>
    match ty with
    | .fixed w =>
      if h.data_size % w ≠ 0 then (.error .corruptedHeaderSize, c)
      else (.ok (HeaderIterator.new ty h.data_offset h.data_size c.mode_), c)
    | .text => (.ok (HeaderIterator.new ty h.data_offset h.data_size c.mode_), c)

/-- Member `read_static<T>(name)`: `header<T>(name)`, one `read()`, then the iterator is
destroyed (its destructor finalizes it when it is a write iterator). -/
def read_static (c : ConfigCreator) (ty : Ty) (name : List Byte) : Except Error (Option (List Byte)) × ConfigCreator :=
  match c.header ty name with
  | (.error e, c1) => (.error e, c1)
  | (.ok h, c1) =>
    let r := h.read c1.file_
    (r.1, { c1 with file_ := (r.2.1.finalize r.2.2).2 })

/-- Member `additem<T>(name, value)`: `addheader<T>(name)`, one `write(value)`, then the
iterator is destroyed, which finalizes it. -/
def additem (c : ConfigCreator) (ty : Ty) (name : List Byte) (value : List Byte) : Except Error Unit × ConfigCreator :=
  match c.addheader ty name with
  | (.error e, c1) => (.error e, c1)
  | (.ok h, c1) =>
    let w := h.write c1.file_ value
    (.ok (), { c1 with file_ := (w.1.finalize w.2).2 })

/-- Member `close()` followed by the destructor: the bytes left in the file. -/
def close (c : ConfigCreator) : List Byte := c.file_.bytes

end ConfigCreator

/-! ## Client programs

The call sequences of `src/example.cpp`: a header is added, written value by value
and finalized before the next one is added; a cursor is read call by call. -/

/-- One header as a client writes it: its name, its element type and the values
written through its cursor, in order. -/
structure HeaderSpec where
  name : List Byte
  ty : Ty
  values : List (List Byte)
  deriving DecidableEq, Repr

/-- Successive `write(v)` calls on one cursor. -/
def writeAll (it : HeaderIterator) (f : FStream) : List (List Byte) → HeaderIterator × FStream
  | [] => (it, f)
  | v :: vs => writeAll (it.write f v).1 (it.write f v).2 vs

/-- The client sequence `auto h = addheader<T>(name); h.write(v1); ...; h.finalize();`. -/
def writeHeader (c : ConfigCreator) (h : HeaderSpec) : Except Error Unit × ConfigCreator :=
  match c.addheader h.ty h.name with
  | (.error e, c1) => (.error e, c1)
  | (.ok it, c1) =>
    let w := writeAll it c1.file_ h.values
    (.ok (), { c1 with file_ := (w.1.finalize w.2).2 })

/-- Headers written one after another, each finalized before the next is added;
stops at the first exception. -/
def writeSession (c : ConfigCreator) : List HeaderSpec → Except Error Unit × ConfigCreator
  | [] => (.ok (), c)
  | h :: hs =>
    match writeHeader c h with
    | (.error e, c1) => (.error e, c1)
    | (.ok (), c1) => writeSession c1 hs

/-- The observations of `k` rounds of `next()` then `read()` on one cursor: what
`next()` answered and what `read()` returned or threw. -/
def readRounds (it : HeaderIterator) (f : FStream) :
    Nat → List (Bool × Except Error (Option (List Byte))) × HeaderIterator × FStream
  | 0 => ([], it, f)
  | k + 1 =>
    let r := it.read f
    let rest := readRounds r.2.1 r.2.2 k
    ((it.next, r.1) :: rest.1, rest.2)

/-- What `k` successive `read()` calls on one cursor return or throw. -/
def readSeq (it : HeaderIterator) (f : FStream) (k : Nat) : List (Except Error (Option (List Byte))) :=
  (readRounds it f k).1.map Prod.snd

/-- Two cursors over one stream driven by a schedule (`true`: the next call is
`a.read()`, `false`: it is `b.read()`).  Returns what each cursor's calls returned
or threw, in call order, and the stream at the end. -/
def interleave (a b : HeaderIterator) (f : FStream) :
    List Bool → List (Except Error (Option (List Byte))) × List (Except Error (Option (List Byte))) × FStream
  | [] => ([], [], f)
  | true :: s =>
    let r := a.read f
    let rest := interleave r.2.1 b r.2.2 s
    (r.1 :: rest.1, rest.2.1, rest.2.2)
  | false :: s =>
    let r := b.read f
    let rest := interleave a r.2.1 r.2.2 s
    (rest.1, r.1 :: rest.2.1, rest.2.2)

/-! ## The on-disk layout, as the format description words it -/

/-- The encoding of one value: the raw bytes of a fixed-width value, or an 8-byte
length followed by the bytes of a text value. -/
def encodeValue : Ty → List Byte → List Byte
  | .fixed _, v => v
  | .text, v => le64 v.length ++ v

/-- The payload of a header: its encoded values, in order. -/
def payload (h : HeaderSpec) : List Byte := (h.values.map (encodeValue h.ty)).flatten

/-- A header record: 8-byte name length, name, 8-byte data size, payload. -/
def record (h : HeaderSpec) : List Byte :=
  le64 h.name.length ++ h.name ++ le64 (payload h).length ++ payload h

/-- A container file: the magic, then the records in creation order. -/
def layout (hs : List HeaderSpec) : List Byte := MAGIC ++ (hs.map record).flatten

/-- The directory a scan builds from records laid out from position `p` on: one
entry per record, its offset the position just after the record's size field. -/
def entriesFrom (p : Nat) : List HeaderSpec → List HeaderInfo
  | [] => []
  | h :: hs =>
    { name := h.name, data_size := (payload h).length, data_offset := p + 16 + h.name.length }
      :: entriesFrom (p + (record h).length) hs

/-- A stream with its file position forgotten: the bytes, the state bits and the mode. -/
def FStream.unpos (f : FStream) : FStream := { f with pos := 0 }

/-- A value fits the element type: a value of a trivially copyable `T` is an image
of `sizeof(T)` bytes, and `sizeof(T)` is at least 1; any byte string is a text value. -/
def Ty.fits : Ty → List Byte → Bool
  | .fixed w, v => decide (v.length = w) && decide (0 < w)
  | .text, _ => true

/-! ## The values of `src/example.cpp` -/

/-- The bytes of `"item1"`. -/
def str_item1 : List Byte := [105, 116, 101, 109, 49]

/-- The bytes of `"item str"`. -/
def str_item_str : List Byte := [105, 116, 101, 109, 32, 115, 116, 114]

/-- The bytes of `"some str"`. -/
def str_some_str : List Byte := [115, 111, 109, 101, 32, 115, 116, 114]

/-- The bytes of `"list"`. -/
def str_list : List Byte := [108, 105, 115, 116]

/-- The bytes of `"str1"`. -/
def str_str1 : List Byte := [115, 116, 114, 49]

/-- The bytes of `"str2"`. -/
def str_str2 : List Byte := [115, 116, 114, 50]

/-- The bytes of `"something"`. -/
def str_something : List Byte := [115, 111, 109, 101, 116, 104, 105, 110, 103]

/-- The object representation of the `double` 19.35 (`0x403359999999999A`). -/
def double_19_35 : List Byte := [154, 153, 153, 153, 153, 89, 51, 64]

/-- The header `file.additem("item1", 19.35)` writes. -/
def hdr_item1 : HeaderSpec := { name := str_item1, ty := .fixed 8, values := [double_19_35] }

/-- The header `file.additem("item str", "some str")` writes. -/
def hdr_item_str : HeaderSpec := { name := str_item_str, ty := .text, values := [str_some_str] }

/-- The header `"list"` with its three values. -/
def hdr_list : HeaderSpec := { name := str_list, ty := .text, values := [str_str1, str_str2, str_something] }

/-- A file cut short inside its last value: the record of `"item1"`, then a record
`"list"` that declares 12 payload bytes, whose text value declares 4 bytes, of which
the file holds 2. -/
def truncated_file : List Byte :=
  layout [hdr_item1] ++ le64 4 ++ str_list ++ le64 12 ++ le64 4 ++ [115, 116]

/-- The call order of `src/example.cpp`, lines 23 to 29: two reads on the first
cursor, then three on the second. -/
def example_schedule : List Bool := [true, true, false, false, false]

/-- The stream of the reopened example file, as the constructor leaves it. -/
def example_stream : FStream :=
  { bytes := layout [hdr_item1, hdr_item_str, hdr_list], pos := 133, eofbit := false, failbit := false,
    badbit := false, mode := .Read }

/-- The cursor `header<std::string>("list")` returns on the reopened example file. -/
def example_cursor : HeaderIterator :=
  { ty := .text, data_start_ := 92, data_size_ := 41, offset_ := 0, write_mode_ := false, size_pos_ := 0 }

/-- A read-mode container whose directory holds the name `"list"` twice. -/
def duplicate_container : ConfigCreator :=
  { file_ := example_stream, mode_ := .Read,
    headers_ := [{ name := str_item1, data_size := 8, data_offset := 24 },
                 { name := str_list, data_size := 16, data_offset := 56 },
                 { name := str_list, data_size := 41, data_offset := 92 }] }

/-- The reopened example file: the container the constructor returns for it. -/
def example_container : ConfigCreator :=
  { file_ := example_stream, mode_ := .Read,
    headers_ := [{ name := str_item1, data_size := 8, data_offset := 24 },
                 { name := str_item_str, data_size := 16, data_offset := 56 },
                 { name := str_list, data_size := 41, data_offset := 92 }] }

/-- A read-mode container whose directory has an entry `"list"` of `data_size` 0. -/
def empty_header_container : ConfigCreator :=
  { file_ := example_stream, mode_ := .Read,
    headers_ := [{ name := str_list, data_size := 0, data_offset := 133 }] }

/-- The write cursor of the header `"list"` of the example, after its three values
are written and before `finalize()`. -/
def example_write_cursor : HeaderIterator :=
  { ty := .text, data_start_ := 92, data_size_ := 0, offset_ := 41, write_mode_ := true, size_pos_ := 84 }

/-- The stream of the example in write mode at that moment: the size field of
`"list"` still holds 0. -/
def example_write_stream : FStream :=
  { bytes := layout [hdr_item1, hdr_item_str] ++ le64 4 ++ str_list ++ le64 0 ++ payload hdr_list,
    pos := 133, eofbit := false, failbit := false, badbit := false, mode := .Write }

/-- The number of bytes by which `read()` and `write()` advance the cursor for one
value: `sizeof(T)` for a fixed-width type, `sizeof(len) + len` for text. -/
def decodedLength : Ty → List Byte → Nat
  | .fixed w, _ => w
  | .text, v => 8 + v.length

/-! ## Raw records -/

/-- A record given by its name and its payload bytes: 8-byte name length, name,
8-byte payload length, payload. -/
def rawRecord (r : List Byte × List Byte) : List Byte :=
  le64 r.1.length ++ r.1 ++ le64 r.2.length ++ r.2

/-- The file of a list of raw records: the magic, then the records in order. -/
def rawFile (rs : List (List Byte × List Byte)) : List Byte := MAGIC ++ (rs.map rawRecord).flatten

/-- The bytes the records before record `i` take: the sum over `j < i` of
`16 + |name_j| + |payload_j|`. -/
def recordsBefore (rs : List (List Byte × List Byte)) (i : Nat) : Nat :=
  ((rs.take i).map (fun r => 16 + r.1.length + r.2.length)).sum

/-- The three records of the example file, as names and payload bytes. -/
def example_records : List (List Byte × List Byte) :=
  [(str_item1, double_19_35), (str_item_str, le64 8 ++ str_some_str), (str_list, payload hdr_list)]

/-- A raw record as a header of one value that is stored as its raw bytes. -/
def rawSpec (r : List Byte × List Byte) : HeaderSpec := { name := r.1, ty := .fixed 0, values := [r.2] }

/-- A file that ends inside a name-length field: the record of `"item1"`, then the
three bytes `05 00 00`. -/
def trailing_bytes_file : List Byte := layout [hdr_item1] ++ [5, 0, 0]

/-- A file that ends inside a record's name: the record of `"item1"`, then a name
length of `2^64 - 1` (eight bytes `FF`) and the four name bytes `"list"`. -/
def huge_name_file : List Byte := layout [hdr_item1] ++ le64 (2 ^ 64 - 1) ++ str_list

/-! ## Client calls on a write-mode container -/

/-- One call a client makes while writing: `addheader<T>(name)` (the cursor returned
is kept as the next numbered cursor), `write(value)` or `finalize()` on the cursor
number `i`, or `additem<T>(name, value)`. -/
inductive WriteOp
  | addheader (ty : Ty) (name : List Byte)
  | write (i : Nat) (value : List Byte)
  | finalize (i : Nat)
  | additem (ty : Ty) (name value : List Byte)
  deriving Repr

/-- The container and the cursors the client holds after one call; a call that
throws leaves the cursors as they were, a call on a cursor the client does not hold
does nothing. -/
def runOp (s : ConfigCreator × List HeaderIterator) : WriteOp → ConfigCreator × List HeaderIterator
  | .addheader ty name =>
    match s.1.addheader ty name with
    | (.ok it, c) => (c, s.2 ++ [it])
    | (.error _, c) => (c, s.2)
  | .write i v =>
    match s.2[i]? with
    | some it => ({ s.1 with file_ := (it.write s.1.file_ v).2 }, s.2.set i (it.write s.1.file_ v).1)
    | none => s
  | .finalize i =>
    match s.2[i]? with
    | some it => ({ s.1 with file_ := (it.finalize s.1.file_).2 }, s.2.set i (it.finalize s.1.file_).1)
    | none => s
  | .additem ty name v => ((s.1.additem ty name v).2, s.2)

/-- The container and the cursors after a sequence of calls. -/
def runOps (s : ConfigCreator × List HeaderIterator) (ops : List WriteOp) :
    ConfigCreator × List HeaderIterator :=
  ops.foldl runOp s

/-- The calls of `src/example.cpp`, lines 8 to 15. -/
def example_ops : List WriteOp :=
  [.additem (.fixed 8) str_item1 double_19_35, .additem .text str_item_str str_some_str,
   .addheader .text str_list, .write 0 str_str1, .write 0 str_str2, .write 0 str_something, .finalize 0]

/-! ## Streams in a known state -/

/-- A good output stream positioned at the end of its file. -/
def wstream (bs : List Byte) : FStream :=
  { bytes := bs, pos := bs.length, eofbit := false, failbit := false, badbit := false, mode := .Write }

/-- A good input stream at position `p` of its file. -/
def rstream (bs : List Byte) (p : Nat) : FStream :=
  { bytes := bs, pos := p, eofbit := false, failbit := false, badbit := false, mode := .Read }

/-- A good output stream at position `p` of its file. -/
def wstreamAt (bs : List Byte) (p : Nat) : FStream :=
  { bytes := bs, pos := p, eofbit := false, failbit := false, badbit := false, mode := .Write }

/-! ## Cursor bounds -/

/-- The bound property of a read cursor after `k` calls of `read()`: the offset is at
most `data_size_`, `data_size_` is the one the cursor started with, and the next call
does not decrease the offset. -/
def cursorBounds (it : HeaderIterator) (f : FStream) (k : Nat) : Prop :=
  (readRounds it f k).2.1.offset_ ≤ (readRounds it f k).2.1.data_size_ ∧
    (readRounds it f k).2.1.data_size_ = it.data_size_ ∧
    (readRounds it f k).2.1.offset_ ≤ (readRounds it f (k + 1)).2.1.offset_

/-- What `header<T>` establishes for a fixed-width `T` of `w` bytes and every
`read()` keeps: the offset is at most `data_size_` and `w` divides what is left. -/
def FixedCursorInv (w : Nat) (it : HeaderIterator) (_f : FStream) : Prop :=
  it.ty = .fixed w ∧ it.offset_ ≤ it.data_size_ ∧ w ∣ (it.data_size_ - it.offset_) ∧
    it.data_size_ < 2 ^ 64

/-- A text cursor over a payload that a text write cursor produced: from the
cursor's position to the end of its range the file holds a sequence of
length-prefixed values, and the stream is a good read stream. -/
def TextCursorInv (it : HeaderIterator) (f : FStream) : Prop :=
  ∃ (bs X Y : List Byte) (p : Nat) (vals : List (List Byte)),
    f = rstream bs p ∧ it.ty = .text ∧ bs = X ++ (vals.map (encodeValue .text)).flatten ++ Y ∧
      it.data_start_ + it.offset_ = X.length ∧
      it.data_size_ = it.offset_ + ((vals.map (encodeValue .text)).flatten).length ∧
      bs.length < 2 ^ 63

/-- The file `additem<uint64_t>("item1", 100)` writes: one header of 8 payload bytes
that hold the number 100. -/
def mistyped_file : List Byte := layout [{ name := str_item1, ty := .fixed 8, values := [le64 100] }]

/-! ## Two live write cursors -/

/-- Writes through two live write cursors in the order of a schedule: `(true, v)` is
`a.write(v)`, `(false, v)` is `b.write(v)`. -/
def writeTwo (a b : HeaderIterator) (f : FStream) :
    List (Bool × List Byte) → HeaderIterator × HeaderIterator × FStream
  | [] => (a, b, f)
  | (true, v) :: s => writeTwo (a.write f v).1 b (a.write f v).2 s
  | (false, v) :: s => writeTwo a (b.write f v).1 (b.write f v).2 s

/-- Both cursors finalized, `a` first when `aFirst` is true, `b` first otherwise. -/
def finalizeTwo (a b : HeaderIterator) (f : FStream) (aFirst : Bool) :
    HeaderIterator × HeaderIterator × FStream :=
  if aFirst then
    ((a.finalize f).1, (b.finalize (a.finalize f).2).1, (b.finalize (a.finalize f).2).2)
  else
    ((a.finalize (b.finalize f).2).1, (b.finalize f).1, (a.finalize (b.finalize f).2).2)

/-- The bytes a schedule of writes appends: each value encoded for the type of the
cursor it is written through. -/
def scheduleBytes (tyA tyB : Ty) (s : List (Bool × List Byte)) : List Byte :=
  (s.map (fun x => encodeValue (if x.1 then tyA else tyB) x.2)).flatten

/-- The total encoded length of the values a schedule writes through one of the two
cursors (`who = true`: the first). -/
def writtenThrough (ty : Ty) (who : Bool) (s : List (Bool × List Byte)) : Nat :=
  (((s.filter (fun x => x.1 == who)).map (fun x => encodeValue ty x.2)).flatten).length

/-- The client calls of the two-cursor example: header `"list"` is added and
`"str1"` written, header `"item str"` is added while the first cursor is live and
`"some str"` written, then the second cursor and the first are finalized. -/
def two_writer_ops : List WriteOp :=
  [.addheader .text str_list, .write 0 str_str1, .addheader .text str_item_str, .write 1 str_some_str,
   .finalize 1, .finalize 0]

/-- The client sequence with two live write cursors: `a = addheader<TA>(nameA)`, the
values `valsA` written through `a`, `b = addheader<TB>(nameB)` while `a` is not
finalized, the scheduled writes through `a` and `b`, then both finalized.  `none`
when an `addheader` throws. -/
def twoWriterRun (c : ConfigCreator) (tyA : Ty) (nameA : List Byte) (valsA : List (List Byte)) (tyB : Ty)
    (nameB : List Byte) (sched : List (Bool × List Byte)) (aFirst : Bool) :
    Option (HeaderIterator × HeaderIterator × FStream) :=
  match c.addheader tyA nameA with
  | (.error _, _) => none
  | (.ok a0, c1) =>
    match ConfigCreator.addheader { c1 with file_ := (writeAll a0 c1.file_ valsA).2 } tyB nameB with
    | (.error _, _) => none
    | (.ok b0, c2) =>
      some (finalizeTwo (writeTwo (writeAll a0 c1.file_ valsA).1 b0 c2.file_ sched).1
        (writeTwo (writeAll a0 c1.file_ valsA).1 b0 c2.file_ sched).2.1
        (writeTwo (writeAll a0 c1.file_ valsA).1 b0 c2.file_ sched).2.2 aFirst)

/-! ## The file system's largest offset

A seek past the end of the file succeeds only up to the largest offset the file
system supports, which differs from one file system to another and is at most
`2^63 - 1`.  The definitions below take that offset `M` as a parameter; with
`M = 2^63 - 1` they are `seekgCur`, `parse_headers` and `ConfigCreator.open`. -/

/-- Member `seekg(off, std::ios::cur)` on a file system whose largest offset is `M`:
clears `eofbit`, then moves the file position by `off`; a target outside `[0, M]`
sets `failbit`. -/
def FStream.seekgCurWithin (M : Nat) (f : FStream) (off : Int) : FStream :=
  let f1 : FStream := { f with eofbit := false }
  if !f1.good then { f1 with failbit := true }
  else if 0 ≤ (f1.pos : Int) + off ∧ (f1.pos : Int) + off ≤ (M : Int) then
    { f1 with pos := ((f1.pos : Int) + off).toNat }
  else { f1 with failbit := true }

/-- Member `parse_headers()` on a file system whose largest offset is `M`: the same
loop as `parse_headers`, one iteration per unit of fuel. -/
def parse_headers_within (M : Nat) :
    Nat → FStream → List HeaderInfo → Option (Except Error Unit × FStream × List HeaderInfo)
  | 0, _, _ => none
  | fuel + 1, f, hs =>
    let r1 := f.read 8
    if r1.2.fail then
      if r1.2.eof then some (.ok (), r1.2.clear, hs)
      else some (.error .corruptedNameSize, r1.2, hs)
    else
      let name_size := fromLe64 r1.1
      if string_max_size < name_size then some (.error .lengthError, r1.2, hs)
      else
        let r2 := r1.2.read name_size
        if r2.2.fail then some (.error .failedReadName, r2.2, hs)
        else
          let r3 := r2.2.read 8
          if r3.2.fail then some (.error .failedReadSize, r3.2, hs)
          else
            let data_size := fromLe64 r3.1
            let t := r3.2.tellg
            let data_offset := toU64 t.1
            parse_headers_within M fuel (t.2.seekgCurWithin M (toOff data_size))
              (hs ++ [{ name := r2.1, data_size := data_size, data_offset := data_offset }])

/-- The constructor `ConfigCreator(filename, mode)` on a file system whose largest
offset is `M`. -/
def ConfigCreator.openWithin (M : Nat) (disk : Option (List Byte)) (mode : Mode) (fuel : Nat) :
    Option (Except Error ConfigCreator) :=
  match mode with
  | .Write =>
    let f : FStream := { bytes := [], pos := 0, eofbit := false, failbit := false, badbit := false, mode := .Write }
    some (.ok { file_ := f.write MAGIC, mode_ := .Write, headers_ := [] })
  | .Read =>
    match disk with
    | none => some (.error .openFailed)
    | some content =>
      let f : FStream := { bytes := content, pos := 0, eofbit := false, failbit := false, badbit := false, mode := .Read }
      let r := f.read 3
      if r.2.fail || r.1 ≠ MAGIC then some (.error .fileNotValid)
      else
        match parse_headers_within M fuel r.2 [] with
        | none => none
        | some (.error e, _, _) => some (.error e)
        | some (.ok (), f1, hs) => some (.ok { file_ := f1, mode_ := .Read, headers_ := hs })

/-- The largest offset of an ext4 file system with 4 KiB blocks. -/
def ext4_max_offset : Nat := 2 ^ 44 - 4096

/-! ## Machine integers -/

theorem le64_length (n : Nat) : (le64 n).length = 8 := rfl

theorem fromLe64_le64 (n : Nat) (h : n < 2 ^ 64) : fromLe64 (le64 n) = n := by
  simp only [le64, fromLe64, byteOf]
  omega

theorem toU64_natCast (n : Nat) (h : n < 2 ^ 64) : toU64 (n : Int) = n := by
  unfold toU64
  omega

theorem toOff_small (n : Nat) (h : n < 2 ^ 63) : toOff n = (n : Int) := by
  unfold toOff
  have h1 : n % 2 ^ 64 = n := Nat.mod_eq_of_lt (by omega)
  rw [h1, if_pos h]

/-! ## Writing at the end of the file -/

theorem overwrite_end (bs d : List Byte) : FStream.overwrite bs bs.length d = bs ++ d := by
  simp [FStream.overwrite]

theorem overwrite_mid (A d e P : List Byte) (h : d.length = e.length) :
    FStream.overwrite (A ++ d ++ P) A.length e = A ++ e ++ P := by
  simp [FStream.overwrite, List.take_append_eq_append_take, List.drop_append_eq_append_drop, ← h]

theorem write_wstream (bs d : List Byte) : (wstream bs).write d = wstream (bs ++ d) := by
  cases d with
  | nil => simp [FStream.write, wstream, FStream.good]
  | cons x xs => simp [FStream.write, wstream, FStream.good, overwrite_end]

theorem tellp_wstream (bs : List Byte) : (wstream bs).tellp = ((bs.length : Int), wstream bs) := by
  simp [FStream.tellp, wstream, FStream.good]

theorem le64_ne_nil (n : Nat) : le64 n ≠ [] := by
  simp [le64]

theorem wstream_eq_at (bs : List Byte) : wstream bs = wstreamAt bs bs.length := rfl

theorem seekp_wstreamAt (bs : List Byte) (p q : Nat) (hq : q < 2 ^ 63) :
    (wstreamAt bs p).seekp (toOff q) = wstreamAt bs q := by
  rw [toOff_small q hq]
  simp [FStream.seekp, wstreamAt, FStream.good]

theorem write_wstreamAt (bs d : List Byte) (p : Nat) (hd : d ≠ []) :
    (wstreamAt bs p).write d = wstreamAt (FStream.overwrite bs p d) (p + d.length) := by
  cases d with
  | nil => exact absurd rfl hd
  | cons x xs => simp [FStream.write, wstreamAt, FStream.good]

theorem encodeValue_length_le (ty : Ty) (v : List Byte) : v.length ≤ (encodeValue ty v).length := by
  cases ty <;> simp [encodeValue]

theorem length_le_payload (ty : Ty) (vals : List (List Byte)) (v : List Byte) (hv : v ∈ vals) :
    v.length ≤ ((vals.map (encodeValue ty)).flatten).length := by
  induction vals with
  | nil => cases hv
  | cons x xs ih =>
    simp only [List.map_cons, List.flatten_cons, List.length_append]
    rcases List.mem_cons.mp hv with h | h
    · subst h
      have := encodeValue_length_le ty v
      omega
    · have := ih h
      omega

theorem write_snd_wstream (it : HeaderIterator) (bs v : List Byte) (hv : v.length < 2 ^ 64) :
    (it.write (wstream bs) v).2 = wstream (bs ++ encodeValue it.ty v) := by
  unfold HeaderIterator.write
  cases h : it.ty with
  | fixed w => simp [encodeValue, write_wstream]
  | text =>
    simp only [encodeValue, write_wstream]
    rw [Nat.mod_eq_of_lt hv, List.append_assoc]

theorem write_fst (it : HeaderIterator) (f : FStream) (v : List Byte) :
    ∃ o, (it.write f v).1 = { it with offset_ := o } := by
  unfold HeaderIterator.write
  cases it.ty with
  | fixed w => exact ⟨_, rfl⟩
  | text => exact ⟨_, rfl⟩

theorem writeAll_fst (vals : List (List Byte)) (it : HeaderIterator) (f : FStream) :
    ∃ o, (writeAll it f vals).1 = { it with offset_ := o } := by
  induction vals generalizing it f with
  | nil => exact ⟨it.offset_, rfl⟩
  | cons v vs ih =>
    obtain ⟨o1, h1⟩ := write_fst it f v
    obtain ⟨o2, h2⟩ := ih (it.write f v).1 (it.write f v).2
    refine ⟨o2, ?_⟩
    simp only [writeAll]
    rw [h2, h1]

theorem writeAll_snd_wstream (vals : List (List Byte)) (it : HeaderIterator) (bs : List Byte)
    (hv : ∀ v ∈ vals, v.length < 2 ^ 64) :
    (writeAll it (wstream bs) vals).2 = wstream (bs ++ (vals.map (encodeValue it.ty)).flatten) := by
  induction vals generalizing it bs with
  | nil => simp [writeAll]
  | cons v vs ih =>
    have h1 := write_snd_wstream it bs v (hv v (List.mem_cons_self _ _))
    obtain ⟨o1, h2⟩ := write_fst it (wstream bs) v
    simp only [writeAll]
    rw [h1, ih _ _ (fun x hx => hv x (List.mem_cons_of_mem _ hx)), h2]
    simp

theorem finalize_wstream (ty : Ty) (A P : List Byte) (ds o : Nat)
    (h : (A ++ le64 0 ++ P).length < 2 ^ 63) :
    HeaderIterator.finalize
        { ty := ty, data_start_ := A.length + 8, data_size_ := ds, offset_ := o, write_mode_ := true,
          size_pos_ := A.length } (wstream (A ++ le64 0 ++ P))
      = ({ ty := ty, data_start_ := A.length + 8, data_size_ := P.length, offset_ := o,
           write_mode_ := false, size_pos_ := A.length },
         wstream (A ++ le64 P.length ++ P)) := by
  have hlen : (A ++ le64 0 ++ P).length = A.length + 8 + P.length := by
    simp only [List.length_append, le64_length]
  have hlen2 : (A ++ le64 P.length ++ P).length = A.length + 8 + P.length := by
    simp only [List.length_append, le64_length]
  rw [hlen] at h
  have hA : A.length < 2 ^ 63 := by omega
  have hds : (A.length + 8 + P.length + 2 ^ 64 - (A.length + 8) % 2 ^ 64) % 2 ^ 64 = P.length := by
    rw [Nat.mod_eq_of_lt (by omega : A.length + 8 < 2 ^ 64)]
    omega
  simp only [HeaderIterator.finalize, Bool.not_true, Bool.false_eq_true, if_false, tellp_wstream, hlen]
  rw [toU64_natCast _ (by omega), hds, wstream_eq_at, seekp_wstreamAt _ _ _ hA,
    write_wstreamAt _ _ _ (le64_ne_nil _), seekp_wstreamAt _ _ _ h,
    overwrite_mid A (le64 0) (le64 P.length) P rfl, wstream_eq_at, hlen2]

theorem fail_wstream (bs : List Byte) : (wstream bs).fail = false := rfl

theorem addheader_wstream (bs name : List Byte) (hs : List HeaderInfo) (ty : Ty)
    (h : (bs ++ le64 name.length ++ name ++ le64 0).length < 2 ^ 63) :
    ConfigCreator.addheader { file_ := wstream bs, mode_ := .Write, headers_ := hs } ty name
      = (.ok { ty := ty, data_start_ := (bs ++ le64 name.length ++ name).length + 8, data_size_ := 0,
               offset_ := 0, write_mode_ := true, size_pos_ := (bs ++ le64 name.length ++ name).length },
         { file_ := wstream (bs ++ le64 name.length ++ name ++ le64 0), mode_ := .Write, headers_ := hs }) := by
  have hlen : (bs ++ le64 name.length ++ name ++ le64 0).length
      = (bs ++ le64 name.length ++ name).length + 8 := by
    simp only [List.length_append, le64_length]
  rw [hlen] at h
  have hn : name.length < 2 ^ 64 := by
    have : name.length ≤ (bs ++ le64 name.length ++ name).length := by
      simp only [List.length_append]
      omega
    omega
  simp only [ConfigCreator.addheader, ne_eq, not_true_eq_false, if_false, write_wstream, fail_wstream,
    Bool.false_eq_true, tellp_wstream, HeaderIterator.new, hlen]
  rw [Nat.mod_eq_of_lt hn, toU64_natCast _ (by omega), toU64_natCast _ (by omega), hlen]

theorem record_eq (h : HeaderSpec) :
    record h = le64 h.name.length ++ h.name ++ le64 (payload h).length ++ payload h := rfl

theorem writeHeader_wstream (bs : List Byte) (hs : List HeaderInfo) (h : HeaderSpec)
    (hb : (bs ++ record h).length < 2 ^ 63) :
    writeHeader { file_ := wstream bs, mode_ := .Write, headers_ := hs } h
      = (.ok (), { file_ := wstream (bs ++ record h), mode_ := .Write, headers_ := hs }) := by
  have hrec : (bs ++ record h).length = bs.length + 8 + h.name.length + 8 + (payload h).length := by
    simp only [record_eq, List.length_append, le64_length]
    omega
  rw [hrec] at hb
  have hadd := addheader_wstream bs h.name hs h.ty (by
    simp only [List.length_append, le64_length]
    omega)
  have hvals : ∀ v ∈ h.values, v.length < 2 ^ 64 := by
    intro v hv
    have := length_le_payload h.ty h.values v hv
    have hp : (payload h).length = ((h.values.map (encodeValue h.ty)).flatten).length := rfl
    omega
  unfold writeHeader
  rw [hadd]
  simp only
  obtain ⟨o, ho⟩ := writeAll_fst h.values
    { ty := h.ty, data_start_ := (bs ++ le64 h.name.length ++ h.name).length + 8, data_size_ := 0,
      offset_ := 0, write_mode_ := true, size_pos_ := (bs ++ le64 h.name.length ++ h.name).length }
    (wstream (bs ++ le64 h.name.length ++ h.name ++ le64 0))
  have hw := writeAll_snd_wstream h.values
    { ty := h.ty, data_start_ := (bs ++ le64 h.name.length ++ h.name).length + 8, data_size_ := 0,
      offset_ := 0, write_mode_ := true, size_pos_ := (bs ++ le64 h.name.length ++ h.name).length }
    (bs ++ le64 h.name.length ++ h.name ++ le64 0) hvals
  rw [ho, hw]
  have hfin := finalize_wstream h.ty (bs ++ le64 h.name.length ++ h.name) (payload h) 0 o (by
    simp only [List.length_append, le64_length]
    omega)
  simp only [payload] at hfin ⊢
  rw [hfin]
  simp only [record_eq, payload, List.append_assoc]

theorem writeSession_wstream (hs : List HeaderSpec) (bs : List Byte) (dir : List HeaderInfo)
    (hb : (bs ++ (hs.map record).flatten).length < 2 ^ 63) :
    writeSession { file_ := wstream bs, mode_ := .Write, headers_ := dir } hs
      = (.ok (), { file_ := wstream (bs ++ (hs.map record).flatten), mode_ := .Write, headers_ := dir }) := by
  induction hs generalizing bs with
  | nil => simp [writeSession]
  | cons h rest ih =>
    simp only [List.map_cons, List.flatten_cons] at hb ⊢
    rw [← List.append_assoc] at hb ⊢
    have h1 : (bs ++ record h).length < 2 ^ 63 := by
      simp only [List.length_append] at hb ⊢
      omega
    simp only [writeSession, writeHeader_wstream bs dir h h1]
    exact ih (bs ++ record h) hb

theorem open_write (disk : Option (List Byte)) (fuel : Nat) :
    ConfigCreator.open disk .Write fuel
      = some (.ok { file_ := wstream MAGIC, mode_ := .Write, headers_ := [] }) := by
  rfl

/-! ## Reading inside the file -/

theorem read_rstream (bs X d Y : List Byte) (p n : Nat) (hbs : bs = X ++ d ++ Y) (hp : p = X.length)
    (hn : n = d.length) : (rstream bs p).read n = (d, rstream bs (p + n)) := by
  subst hbs hp hn
  simp [FStream.read, rstream, FStream.good, List.drop_append_eq_append_drop,
    List.take_append_eq_append_take]

theorem read_rstream_eof (bs : List Byte) (n : Nat) (hn : 0 < n) :
    (rstream bs bs.length).read n
      = ([], { bytes := bs, pos := bs.length, eofbit := true, failbit := true, badbit := false, mode := .Read }) := by
  simp [FStream.read, rstream, FStream.good]
  omega

theorem tellg_rstream (bs : List Byte) (p : Nat) : (rstream bs p).tellg = ((p : Int), rstream bs p) := by
  simp [FStream.tellg, rstream, FStream.good]

theorem seekg_rstream (bs : List Byte) (p q : Nat) : (rstream bs p).seekg (q : Int) = rstream bs q := by
  simp [FStream.seekg, rstream, FStream.good]

theorem seekgCur_rstream (bs : List Byte) (p n : Nat) (h : p + n < 2 ^ 63) :
    (rstream bs p).seekgCur (toOff n) = rstream bs (p + n) := by
  rw [toOff_small n (by omega)]
  have h1 : (0 : Int) ≤ (p : Int) + (n : Int) ∧ (p : Int) + (n : Int) < (2 : Int) ^ 63 := by
    constructor <;> omega
  have h2 : ((p : Int) + (n : Int)).toNat = p + n := by omega
  simp only [FStream.seekgCur, rstream, FStream.good, Bool.not_false, Bool.and_self, Bool.not_true,
    Bool.false_eq_true, if_false, h1, and_self, if_true, h2]

theorem fail_rstream (bs : List Byte) (p : Nat) : (rstream bs p).fail = false := rfl

theorem parse_headers_records (hs : List HeaderSpec) (A : List Byte) (acc : List HeaderInfo) (fuel : Nat)
    (hf : hs.length < fuel) (hb : (A ++ (hs.map record).flatten).length < 2 ^ 63) :
    parse_headers fuel (rstream (A ++ (hs.map record).flatten) A.length) acc
      = some (.ok (), rstream (A ++ (hs.map record).flatten) (A ++ (hs.map record).flatten).length,
          acc ++ entriesFrom A.length hs) := by
  induction hs generalizing A acc fuel with
  | nil =>
    cases fuel with
    | zero => exact absurd hf (by simp)
    | succ k =>
      simp only [List.map_nil, List.flatten_nil, List.append_nil, parse_headers, entriesFrom]
      rw [read_rstream_eof A 8 (by decide)]
      simp [FStream.fail, FStream.eof, FStream.clear, rstream]
  | cons h rest ih =>
    cases fuel with
    | zero => exact absurd hf (by simp)
    | succ k =>
      have hk : rest.length < k := by
        simp only [List.length_cons] at hf
        omega
      simp only [List.map_cons, List.flatten_cons] at hb ⊢
      generalize hR : (rest.map record).flatten = R at hb ⊢
      have hlen : (A ++ (record h ++ R)).length
          = A.length + 8 + h.name.length + 8 + (payload h).length + R.length := by
        simp only [record_eq, List.length_append, le64_length]
        omega
      rw [hlen] at hb
      have e1 := read_rstream (A ++ (record h ++ R)) A (le64 h.name.length)
        (h.name ++ le64 (payload h).length ++ payload h ++ R) A.length 8
        (by simp only [record_eq, List.append_assoc]) rfl rfl
      have e2 := read_rstream (A ++ (record h ++ R)) (A ++ le64 h.name.length) h.name
        (le64 (payload h).length ++ payload h ++ R) (A.length + 8) h.name.length
        (by simp only [record_eq, List.append_assoc]) (by simp [le64_length]) rfl
      have e3 := read_rstream (A ++ (record h ++ R)) (A ++ le64 h.name.length ++ h.name)
        (le64 (payload h).length) (payload h ++ R) (A.length + 8 + h.name.length) 8
        (by simp only [record_eq, List.append_assoc]) (by simp only [List.length_append, le64_length]) rfl
      have hns : ¬ string_max_size < h.name.length := by
        unfold string_max_size
        omega
      have hnext := ih (A ++ record h) (acc ++
        [{ name := h.name, data_size := (payload h).length, data_offset := A.length + 16 + h.name.length }]) k hk
        (by
          rw [hR, List.append_assoc, hlen]
          exact hb)
      rw [hR] at hnext
      have hpos : A.length + 8 + h.name.length + 8 + (payload h).length = (A ++ record h).length := by
        simp only [record_eq, List.length_append, le64_length]
        omega
      have hoff : A.length + 8 + h.name.length + 8 = A.length + 16 + h.name.length := by omega
      simp only [parse_headers, e1, fail_rstream, Bool.false_eq_true, if_false,
        fromLe64_le64 h.name.length (by omega), hns, e2, e3,
        fromLe64_le64 (payload h).length (by omega), tellg_rstream,
        seekgCur_rstream _ _ _ (by omega : A.length + 8 + h.name.length + 8 + (payload h).length < 2 ^ 63),
        toU64_natCast _ (by omega : A.length + 8 + h.name.length + 8 < 2 ^ 64), entriesFrom]
      rw [hpos, hoff, ← List.append_assoc A (record h) R, hnext, List.length_append A (record h)]
      simp only [List.append_assoc, List.singleton_append]

theorem open_read_eq (content : List Byte) (fuel : Nat) :
    ConfigCreator.open (some content) .Read fuel
      = if ((rstream content 0).read 3).2.fail || decide (((rstream content 0).read 3).1 ≠ MAGIC) then
          some (.error .fileNotValid)
        else
          match parse_headers fuel ((rstream content 0).read 3).2 [] with
          | none => none
          | some (.error e, _, _) => some (.error e)
          | some (.ok (), f1, hs) => some (.ok { file_ := f1, mode_ := .Read, headers_ := hs }) := rfl

theorem open_read_layout (hs : List HeaderSpec) (fuel : Nat) (hf : hs.length < fuel)
    (hb : (layout hs).length < 2 ^ 63) :
    ConfigCreator.open (some (layout hs)) .Read fuel
      = some (.ok { file_ := rstream (layout hs) (layout hs).length, mode_ := .Read,
                    headers_ := entriesFrom 3 hs }) := by
  have e := read_rstream (layout hs) [] MAGIC (hs.map record).flatten 0 3 rfl rfl rfl
  have hp := parse_headers_records hs MAGIC [] fuel hf hb
  have h3 : MAGIC.length = 3 := rfl
  rw [h3] at hp
  rw [open_read_eq, e]
  simp only [fail_rstream, ne_eq, not_true_eq_false, decide_False, Bool.or_self, Bool.false_eq_true,
    if_false, Nat.zero_add]
  unfold layout
  rw [hp]
  simp

theorem find_header_entriesFrom (pre : List HeaderSpec) (h : HeaderSpec) (post : List HeaderSpec) (p : Nat)
    (hname : ∀ x ∈ pre, x.name ≠ h.name) :
    find_header (entriesFrom p (pre ++ h :: post)) h.name
      = some { name := h.name, data_size := (payload h).length,
               data_offset := p + ((pre.map record).flatten).length + 16 + h.name.length } := by
  induction pre generalizing p with
  | nil => simp [entriesFrom, find_header]
  | cons x xs ih =>
    have hx : x.name ≠ h.name := hname x (List.mem_cons_self _ _)
    simp only [List.cons_append, entriesFrom, find_header, hx, if_false]
    change find_header (entriesFrom (p + (record x).length) (xs ++ h :: post)) h.name = _
    rw [ih (p + (record x).length) (fun y hy => hname y (List.mem_cons_of_mem _ hy))]
    simp only [List.map_cons, List.flatten_cons, List.length_append]
    simp only [Nat.add_assoc]

/-! ## Reading values through a cursor -/

theorem read_fixed_rstream (bs X v Y : List Byte) (p w ds dsz off sp : Nat) (wm : Bool)
    (hbs : bs = X ++ v ++ Y) (hX : ds + off = X.length) (hv : v.length = w) (hnext : off < dsz)
    (hb : bs.length < 2 ^ 63) :
    HeaderIterator.read
        { ty := .fixed w, data_start_ := ds, data_size_ := dsz, offset_ := off, write_mode_ := wm,
          size_pos_ := sp } (rstream bs p)
      = (.ok (some v),
         { ty := .fixed w, data_start_ := ds, data_size_ := dsz, offset_ := off + w, write_mode_ := wm,
           size_pos_ := sp }, rstream bs p) := by
  have hlen : bs.length = X.length + v.length + Y.length := by
    rw [hbs]
    simp only [List.length_append]
  have e := read_rstream bs X v Y (ds + off) w hbs hX hv.symm
  have hmod : (off + w) % 2 ^ 64 = off + w := Nat.mod_eq_of_lt (by omega)
  simp only [HeaderIterator.read, HeaderIterator.next, hnext, decide_True, Bool.not_true,
    Bool.false_eq_true, if_false, tellg_rstream, toOff_small (ds + off) (by omega), seekg_rstream, e,
    hv, if_true, hmod]

theorem read_text_rstream (bs X v Y : List Byte) (p ds dsz off sp : Nat) (wm : Bool)
    (hbs : bs = X ++ (le64 v.length ++ v) ++ Y) (hX : ds + off = X.length) (hnext : off < dsz)
    (hb : bs.length < 2 ^ 63) :
    HeaderIterator.read
        { ty := .text, data_start_ := ds, data_size_ := dsz, offset_ := off, write_mode_ := wm,
          size_pos_ := sp } (rstream bs p)
      = (.ok (some v),
         { ty := .text, data_start_ := ds, data_size_ := dsz, offset_ := off + (8 + v.length),
           write_mode_ := wm, size_pos_ := sp }, rstream bs p) := by
  have hlen : bs.length = X.length + (8 + v.length) + Y.length := by
    rw [hbs]
    simp only [List.length_append, le64_length]
  have e1 := read_rstream bs X (le64 v.length) (v ++ Y) (ds + off) 8
    (by rw [hbs]; simp only [List.append_assoc]) hX rfl
  have e2 := read_rstream bs (X ++ le64 v.length) v Y (ds + off + 8) v.length
    (by rw [hbs]; simp only [List.append_assoc])
    (by simp only [List.length_append, le64_length]; omega) rfl
  have hmod : (off + (8 + v.length)) % 2 ^ 64 = off + (8 + v.length) := Nat.mod_eq_of_lt (by omega)
  have hns : ¬ string_max_size < v.length := by
    unfold string_max_size
    omega
  simp only [HeaderIterator.read, HeaderIterator.next, hnext, decide_True, Bool.not_true,
    Bool.false_eq_true, if_false, tellg_rstream, toOff_small (ds + off) (by omega), seekg_rstream, e1,
    le64_length, ne_eq, not_true_eq_false, fromLe64_le64 v.length (by omega), hns, e2, hmod,
    Nat.sub_self, List.replicate_zero, List.append_nil]

theorem encodeValue_length_pos (ty : Ty) (v : List Byte) (hfit : ty.fits v = true) :
    0 < (encodeValue ty v).length := by
  cases ty with
  | fixed w =>
    simp only [Ty.fits, Bool.and_eq_true, decide_eq_true_eq] at hfit
    simp only [encodeValue]
    omega
  | text => simp [encodeValue, le64_length]

theorem read_value_rstream (ty : Ty) (bs X v Y : List Byte) (p ds dsz off sp : Nat) (wm : Bool)
    (hfit : ty.fits v = true) (hbs : bs = X ++ encodeValue ty v ++ Y) (hX : ds + off = X.length)
    (hnext : off < dsz) (hb : bs.length < 2 ^ 63) :
    HeaderIterator.read
        { ty := ty, data_start_ := ds, data_size_ := dsz, offset_ := off, write_mode_ := wm,
          size_pos_ := sp } (rstream bs p)
      = (.ok (some v),
         { ty := ty, data_start_ := ds, data_size_ := dsz, offset_ := off + (encodeValue ty v).length,
           write_mode_ := wm, size_pos_ := sp }, rstream bs p) := by
  cases ty with
  | fixed w =>
    simp only [Ty.fits, Bool.and_eq_true, decide_eq_true_eq] at hfit
    have := read_fixed_rstream bs X v Y p w ds dsz off sp wm hbs hX hfit.1 hnext hb
    simp only [encodeValue, hfit.1]
    exact this
  | text =>
    have := read_text_rstream bs X v Y p ds dsz off sp wm hbs hX hnext hb
    simp only [encodeValue, List.length_append, le64_length]
    exact this

theorem read_exhausted (it : HeaderIterator) (f : FStream) (h : it.next = false) :
    it.read f = (.error .outOfBounds, it, f) := by
  simp [HeaderIterator.read, h]

theorem readRounds_exhausted (it : HeaderIterator) (f : FStream) (h : it.next = false) (k : Nat) :
    readRounds it f k = (List.replicate k (false, .error .outOfBounds), it, f) := by
  induction k with
  | zero => rfl
  | succ k ih => simp only [readRounds, read_exhausted it f h, ih, h, List.replicate_succ]

theorem readRounds_values (ty : Ty) (vals : List (List Byte)) (bs X Y : List Byte)
    (p ds off sp extra : Nat) (wm : Bool)
    (hfit : ∀ v ∈ vals, ty.fits v = true)
    (hbs : bs = X ++ (vals.map (encodeValue ty)).flatten ++ Y) (hX : ds + off = X.length)
    (hb : bs.length < 2 ^ 63) :
    readRounds
        { ty := ty, data_start_ := ds, data_size_ := off + ((vals.map (encodeValue ty)).flatten).length,
          offset_ := off, write_mode_ := wm, size_pos_ := sp } (rstream bs p) (vals.length + extra)
      = (vals.map (fun v => (true, Except.ok (some v))) ++ List.replicate extra (false, .error .outOfBounds),
         { ty := ty, data_start_ := ds, data_size_ := off + ((vals.map (encodeValue ty)).flatten).length,
           offset_ := off + ((vals.map (encodeValue ty)).flatten).length, write_mode_ := wm,
           size_pos_ := sp }, rstream bs p) := by
  induction vals generalizing X off with
  | nil =>
    simp only [List.map_nil, List.flatten_nil, List.length_nil, Nat.add_zero, Nat.zero_add, List.nil_append]
    exact readRounds_exhausted _ _ (by simp [HeaderIterator.next]) extra
  | cons v vs ih =>
    have hv : ty.fits v = true := hfit v (List.mem_cons_self _ _)
    have hpos := encodeValue_length_pos ty v hv
    simp only [List.map_cons, List.flatten_cons, List.length_append, List.length_cons] at hbs ⊢
    have hr := read_value_rstream ty bs X v ((vs.map (encodeValue ty)).flatten ++ Y) p ds
      (off + ((encodeValue ty v).length + ((vs.map (encodeValue ty)).flatten).length)) off sp wm hv
      (by rw [hbs]; simp only [List.append_assoc]) hX (by omega) hb
    have hih := ih (X ++ encodeValue ty v) (off + (encodeValue ty v).length)
      (fun x hx => hfit x (List.mem_cons_of_mem _ hx))
      (by rw [hbs]; simp only [List.append_assoc])
      (by simp only [List.length_append]; omega)
    have hsz : off + (encodeValue ty v).length + ((vs.map (encodeValue ty)).flatten).length
        = off + ((encodeValue ty v).length + ((vs.map (encodeValue ty)).flatten).length) := by omega
    rw [hsz] at hih
    have hk : vs.length + 1 + extra = (vs.length + extra) + 1 := by omega
    rw [hk]
    simp only [readRounds, hr, hih, HeaderIterator.next, List.cons_append]
    simp only [List.cons.injEq, Prod.mk.injEq, decide_eq_true_eq, and_true, true_and]
    omega

/-! ## Whole sessions -/

theorem additem_eq_writeHeader (c : ConfigCreator) (ty : Ty) (n v : List Byte) :
    c.additem ty n v = writeHeader c { name := n, ty := ty, values := [v] } := rfl

theorem layout_append (pre : List HeaderSpec) (h : HeaderSpec) (post : List HeaderSpec) :
    layout (pre ++ h :: post)
      = MAGIC ++ (pre.map record).flatten ++ record h ++ (post.map record).flatten := by
  simp [layout, List.append_assoc]

theorem layout_payload_split (pre : List HeaderSpec) (h : HeaderSpec) (post : List HeaderSpec) :
    layout (pre ++ h :: post)
      = (MAGIC ++ (pre.map record).flatten ++ le64 h.name.length ++ h.name ++ le64 (payload h).length)
          ++ payload h ++ (post.map record).flatten := by
  simp [layout, record_eq, List.append_assoc]

theorem finalize_read_iterator (it : HeaderIterator) (f : FStream) (h : it.write_mode_ = false) :
    it.finalize f = (it, f) := by
  simp [HeaderIterator.finalize, h]

theorem example_layout_length : (layout [hdr_item1, hdr_item_str, hdr_list]).length = 133 := rfl

theorem example_layout_small : (layout [hdr_item1, hdr_item_str, hdr_list]).length < 2 ^ 63 := by
  rw [example_layout_length]
  norm_num

/-- C4.  Headers created one after another in write mode, each written and
finalized before the next is added, leave a file that is byte for byte the magic
followed by one record per header in creation order: 8-byte name length, name,
8-byte payload length, payload; a fixed-width value is stored as its raw bytes, a
text value as its 8-byte length and its bytes.  (Files are shorter than 2^63
bytes.) -/
theorem layout_byte_exact (hs : List HeaderSpec) (disk : Option (List Byte)) (fuel : Nat)
    (hb : (layout hs).length < 2 ^ 63) :
    ∃ c0 c1, ConfigCreator.open disk .Write fuel = some (.ok c0) ∧
      writeSession c0 hs = (.ok (), c1) ∧ c1.close = layout hs := by
  refine ⟨_, _, open_write disk fuel, writeSession_wstream hs MAGIC [] hb, rfl⟩

/-- The layout theorem at the three headers of `src/example.cpp`. -/
theorem layout_byte_exact_witness :
    ∃ c0 c1, ConfigCreator.open none .Write 0 = some (.ok c0) ∧
      writeSession c0 [hdr_item1, hdr_item_str, hdr_list] = (.ok (), c1) ∧
      c1.close = layout [hdr_item1, hdr_item_str, hdr_list] :=
  layout_byte_exact [hdr_item1, hdr_item_str, hdr_list] none 0 example_layout_small

theorem session_round_trip (pre post : List HeaderSpec) (h : HeaderSpec) (fuel : Nat)
    (hsize : (layout (pre ++ h :: post)).length < 2 ^ 63) (hfuel : pre.length + post.length + 1 < fuel) :
    writeSession { file_ := wstream MAGIC, mode_ := .Write, headers_ := [] } pre
        = (.ok (), { file_ := wstream (MAGIC ++ (pre.map record).flatten), mode_ := .Write, headers_ := [] }) ∧
      writeHeader { file_ := wstream (MAGIC ++ (pre.map record).flatten), mode_ := .Write, headers_ := [] } h
        = (.ok (), { file_ := wstream (MAGIC ++ (pre.map record).flatten ++ record h), mode_ := .Write,
                     headers_ := [] }) ∧
      writeSession { file_ := wstream (MAGIC ++ (pre.map record).flatten ++ record h), mode_ := .Write,
                     headers_ := [] } post
        = (.ok (), { file_ := wstream (layout (pre ++ h :: post)), mode_ := .Write, headers_ := [] }) ∧
      ConfigCreator.open (some (layout (pre ++ h :: post))) .Read fuel
        = some (.ok { file_ := rstream (layout (pre ++ h :: post)) (layout (pre ++ h :: post)).length,
                      mode_ := .Read, headers_ := entriesFrom 3 (pre ++ h :: post) }) := by
  have hl := layout_append pre h post
  have hlen : (layout (pre ++ h :: post)).length
      = (MAGIC ++ (pre.map record).flatten).length + (record h).length + ((post.map record).flatten).length := by
    rw [hl]
    simp only [List.length_append]
  refine ⟨writeSession_wstream pre MAGIC [] (by omega), writeHeader_wstream _ [] h ?_, ?_, ?_⟩
  · simp only [List.length_append] at hlen ⊢
    omega
  · rw [hl]
    exact writeSession_wstream post _ [] (by rw [← hl]; exact hsize)
  · exact open_read_layout _ fuel (by simp only [List.length_append, List.length_cons]; omega) hsize

/-- C1.  Single-value round trip.  In a container opened in write mode, after any
headers whose names differ from `n`, `additem(n, v)` is called, any further headers
are written and the file is closed; the file reopened in read mode gives
`read_static<T>(n) = v`, for a fixed-width `T` (`v` an image of `sizeof(T) ≥ 1` bytes)
and for text.  (Files are shorter than 2^63 bytes.) -/
theorem single_value_round_trip (pre post : List HeaderSpec) (ty : Ty) (n v : List Byte) (fuel : Nat)
    (hfit : ty.fits v = true) (hname : ∀ x ∈ pre, x.name ≠ n)
    (hsize : (layout (pre ++ { name := n, ty := ty, values := [v] } :: post)).length < 2 ^ 63)
    (hfuel : pre.length + post.length + 1 < fuel) :
    ∃ c0 c1 c2 c3 cr, ConfigCreator.open none .Write 0 = some (.ok c0) ∧
      writeSession c0 pre = (.ok (), c1) ∧
      c1.additem ty n v = (.ok (), c2) ∧
      writeSession c2 post = (.ok (), c3) ∧
      ConfigCreator.open (some c3.close) .Read fuel = some (.ok cr) ∧
      (cr.read_static ty n).1 = .ok (some v) := by
  obtain ⟨h1, h2, h3, h4⟩ := session_round_trip pre post { name := n, ty := ty, values := [v] } fuel hsize hfuel
  refine ⟨_, _, _, _, _, open_write none 0, h1, ?_, h3, h4, ?_⟩
  · rw [additem_eq_writeHeader]
    exact h2
  · have hfind := find_header_entriesFrom pre { name := n, ty := ty, values := [v] } post 3 hname
    have hsplit := layout_payload_split pre { name := n, ty := ty, values := [v] } post
    have hpay : payload { name := n, ty := ty, values := [v] } = encodeValue ty v := by
      simp [payload]
    rw [hpay] at hfind hsplit
    have hpos := encodeValue_length_pos ty v hfit
    have hX : (3 + ((pre.map record).flatten).length + 16 + n.length) + 0
        = (MAGIC ++ (pre.map record).flatten ++ le64 n.length ++ n ++ le64 (encodeValue ty v).length).length := by
      simp only [List.length_append, le64_length]
      have : MAGIC.length = 3 := rfl
      omega
    have hread := read_value_rstream ty _ _ v _
      (layout (pre ++ { name := n, ty := ty, values := [v] } :: post)).length
      (3 + ((pre.map record).flatten).length + 16 + n.length) (encodeValue ty v).length 0 0 false
      hfit hsplit hX hpos hsize
    have hdiv : ∀ w, ty = .fixed w → (encodeValue ty v).length % w = 0 := by
      intro w hw
      subst hw
      simp only [Ty.fits, Bool.and_eq_true, decide_eq_true_eq] at hfit
      simp [encodeValue, hfit.1]
    unfold ConfigCreator.read_static ConfigCreator.header
    simp only [hfind]
    cases ty with
    | fixed w =>
      simp only [hdiv w rfl, ne_eq, not_true_eq_false, if_false, HeaderIterator.new]
      rw [hread]
    | text =>
      simp only [HeaderIterator.new]
      rw [hread]

/-- The single-value round trip at `additem("item1", 19.35)` and at
`additem("item str", "some str")` of `src/example.cpp`. -/
theorem single_value_round_trip_witness :
    (∃ c0 c1 c2 c3 cr, ConfigCreator.open none .Write 0 = some (.ok c0) ∧
      writeSession c0 [] = (.ok (), c1) ∧
      c1.additem (.fixed 8) str_item1 double_19_35 = (.ok (), c2) ∧
      writeSession c2 [hdr_item_str, hdr_list] = (.ok (), c3) ∧
      ConfigCreator.open (some c3.close) .Read 4 = some (.ok cr) ∧
      (cr.read_static (.fixed 8) str_item1).1 = .ok (some double_19_35)) ∧
    (∃ c0 c1 c2 c3 cr, ConfigCreator.open none .Write 0 = some (.ok c0) ∧
      writeSession c0 [hdr_item1] = (.ok (), c1) ∧
      c1.additem .text str_item_str str_some_str = (.ok (), c2) ∧
      writeSession c2 [hdr_list] = (.ok (), c3) ∧
      ConfigCreator.open (some c3.close) .Read 4 = some (.ok cr) ∧
      (cr.read_static .text str_item_str).1 = .ok (some str_some_str)) :=
  ⟨single_value_round_trip [] [hdr_item_str, hdr_list] (.fixed 8) str_item1 double_19_35 4 rfl
      (fun _ hx => absurd hx (List.not_mem_nil _)) example_layout_small (by decide),
   single_value_round_trip [hdr_item1] [hdr_list] .text str_item_str str_some_str 4 rfl
      (by decide) example_layout_small (by decide)⟩

/-- C2.  Multi-value round trip.  Text values `v1..vk` written in order through one
write cursor from `addheader<string>(n)` and finalized (after headers of other names,
before any further headers) are returned in the same order by `k` successive
`read()` calls on a cursor from `header<string>(n)` on the reopened file; `next()` is
true before each of these reads and false from then on, where `read()` throws
"Out of bounds".  (Files are shorter than 2^63 bytes.) -/
theorem multi_value_round_trip (pre post : List HeaderSpec) (n : List Byte) (vals : List (List Byte))
    (extra fuel : Nat) (hname : ∀ x ∈ pre, x.name ≠ n)
    (hsize : (layout (pre ++ { name := n, ty := .text, values := vals } :: post)).length < 2 ^ 63)
    (hfuel : pre.length + post.length + 1 < fuel) :
    ∃ c0 c1 c2 c3 cr it, ConfigCreator.open none .Write 0 = some (.ok c0) ∧
      writeSession c0 pre = (.ok (), c1) ∧
      writeHeader c1 { name := n, ty := .text, values := vals } = (.ok (), c2) ∧
      writeSession c2 post = (.ok (), c3) ∧
      ConfigCreator.open (some c3.close) .Read fuel = some (.ok cr) ∧
      cr.header .text n = (.ok it, cr) ∧
      (readRounds it cr.file_ (vals.length + extra)).1
        = vals.map (fun v => (true, Except.ok (some v)))
            ++ List.replicate extra (false, Except.error Error.outOfBounds) := by
  obtain ⟨h1, h2, h3, h4⟩ :=
    session_round_trip pre post { name := n, ty := .text, values := vals } fuel hsize hfuel
  have hfind := find_header_entriesFrom pre { name := n, ty := .text, values := vals } post 3 hname
  have hsplit := layout_payload_split pre { name := n, ty := .text, values := vals } post
  have hX : (3 + ((pre.map record).flatten).length + 16 + n.length) + 0
      = (MAGIC ++ (pre.map record).flatten ++ le64 n.length ++ n
          ++ le64 (payload { name := n, ty := .text, values := vals }).length).length := by
    simp only [List.length_append, le64_length]
    have : MAGIC.length = 3 := rfl
    omega
  have hrounds := readRounds_values .text vals _ _ _
    (layout (pre ++ { name := n, ty := .text, values := vals } :: post)).length
    (3 + ((pre.map record).flatten).length + 16 + n.length) 0 0 extra false
    (fun _ _ => rfl) hsplit hX hsize
  simp only [Nat.zero_add] at hrounds
  refine ⟨_, _, _, _, _,
    { ty := .text, data_start_ := 3 + ((pre.map record).flatten).length + 16 + n.length,
      data_size_ := (payload { name := n, ty := .text, values := vals }).length, offset_ := 0,
      write_mode_ := false, size_pos_ := 0 },
    open_write none 0, h1, h2, h3, h4, ?_, ?_⟩
  · unfold ConfigCreator.header
    simp only [hfind, HeaderIterator.new]
  · simp only [payload]
    rw [hrounds]

/-- The multi-value round trip at the header `"list"` of `src/example.cpp`, with two
rounds past the last value. -/
theorem multi_value_round_trip_witness :
    ∃ c0 c1 c2 c3 cr it, ConfigCreator.open none .Write 0 = some (.ok c0) ∧
      writeSession c0 [hdr_item1, hdr_item_str] = (.ok (), c1) ∧
      writeHeader c1 { name := str_list, ty := .text, values := [str_str1, str_str2, str_something] }
        = (.ok (), c2) ∧
      writeSession c2 [] = (.ok (), c3) ∧
      ConfigCreator.open (some c3.close) .Read 4 = some (.ok cr) ∧
      cr.header .text str_list = (.ok it, cr) ∧
      (readRounds it cr.file_ ([str_str1, str_str2, str_something].length + 2)).1
        = [str_str1, str_str2, str_something].map (fun v => (true, Except.ok (some v)))
            ++ List.replicate 2 (false, Except.error Error.outOfBounds) :=
  multi_value_round_trip [hdr_item1, hdr_item_str] [] str_list [str_str1, str_str2, str_something] 2 4
    (by decide) example_layout_small (by decide)

/-! ## Cursors sharing one stream -/

theorem unpos_good (f g : FStream) (h : f.unpos = g.unpos) : f.good = g.good := by
  obtain ⟨_, _, _, _, _, _⟩ := f
  obtain ⟨_, _, _, _, _, _⟩ := g
  simp only [FStream.unpos, FStream.mk.injEq] at h
  obtain ⟨_, _, h1, h2, h3, _⟩ := h
  simp [FStream.good, h1, h2, h3]

theorem tellg_congr (f g : FStream) (h : f.unpos = g.unpos) :
    f.tellg.2.unpos = g.tellg.2.unpos ∧ (0 ≤ f.tellg.1 ↔ 0 ≤ g.tellg.1) := by
  obtain ⟨bytes, pos, e, fl, b, m⟩ := f
  obtain ⟨bytes2, pos2, e2, fl2, b2, m2⟩ := g
  simp only [FStream.unpos, FStream.mk.injEq, true_and] at h
  obtain ⟨rfl, rfl, rfl, rfl, rfl⟩ := h
  cases e <;> cases fl <;> cases b <;> simp [FStream.tellg, FStream.good, FStream.unpos]

theorem seekg_congr_same (f g : FStream) (p : Int) (h : f.unpos = g.unpos) :
    (f.seekg p).unpos = (g.seekg p).unpos ∧ ((f.seekg p).good = true → f.seekg p = g.seekg p) := by
  obtain ⟨bytes, pos, e, fl, b, m⟩ := f
  obtain ⟨bytes2, pos2, e2, fl2, b2, m2⟩ := g
  simp only [FStream.unpos, FStream.mk.injEq, true_and] at h
  obtain ⟨rfl, rfl, rfl, rfl, rfl⟩ := h
  by_cases hp : 0 ≤ p <;> cases e <;> cases fl <;> cases b <;>
    simp [FStream.seekg, FStream.good, FStream.unpos, hp]

theorem seekg_congr (f g : FStream) (p q : Int) (h : f.unpos = g.unpos) (hpq : 0 ≤ p ↔ 0 ≤ q) :
    (f.seekg p).unpos = (g.seekg q).unpos := by
  obtain ⟨bytes, pos, e, fl, b, m⟩ := f
  obtain ⟨bytes2, pos2, e2, fl2, b2, m2⟩ := g
  simp only [FStream.unpos, FStream.mk.injEq, true_and] at h
  obtain ⟨rfl, rfl, rfl, rfl, rfl⟩ := h
  by_cases hp : 0 ≤ p
  · have hq : 0 ≤ q := hpq.mp hp
    cases e <;> cases fl <;> cases b <;> simp [FStream.seekg, FStream.good, FStream.unpos, hp, hq]
  · have hq : ¬ 0 ≤ q := fun hq => hp (hpq.mpr hq)
    cases e <;> cases fl <;> cases b <;> simp [FStream.seekg, FStream.good, FStream.unpos, hp, hq]

theorem read_not_good (f : FStream) (n : Nat) (h : f.good = false) :
    f.read n = ([], { f with failbit := true }) := by
  simp [FStream.read, h]

theorem stream_read_congr (f g : FStream) (n : Nat) (h : f.unpos = g.unpos)
    (hg : f.good = true → f = g) :
    (f.read n).1 = (g.read n).1 ∧ (f.read n).2.unpos = (g.read n).2.unpos ∧
      ((f.read n).2.good = true → (f.read n).2 = (g.read n).2) := by
  by_cases hgood : f.good = true
  · have := hg hgood
    subst this
    exact ⟨rfl, rfl, fun _ => rfl⟩
  · have hgood1 : f.good = false := by simpa using hgood
    have hgood2 : g.good = false := by
      rw [← unpos_good f g h]
      exact hgood1
    rw [read_not_good f n hgood1, read_not_good g n hgood2]
    obtain ⟨bytes, pos, e, fl, b, m⟩ := f
    obtain ⟨bytes2, pos2, e2, fl2, b2, m2⟩ := g
    simp only [FStream.unpos, FStream.mk.injEq, true_and] at h
    obtain ⟨rfl, rfl, rfl, rfl, rfl⟩ := h
    simp [FStream.unpos, FStream.good]

/-- One `read()` does not depend on where the shared file position stands: from two
streams that differ in the position only it returns the same, leaves the cursor
the same, and leaves streams that differ in the position only. -/
theorem read_congr (it : HeaderIterator) (f g : FStream) (h : f.unpos = g.unpos) :
    (it.read f).1 = (it.read g).1 ∧ (it.read f).2.1 = (it.read g).2.1 ∧
      (it.read f).2.2.unpos = (it.read g).2.2.unpos := by
  obtain ⟨ty, ds, dsz, off, wm, sp⟩ := it
  by_cases hn : off < dsz
  · obtain ⟨ht1, ht2⟩ := tellg_congr f g h
    obtain ⟨hs1, hs2⟩ := seekg_congr_same f.tellg.2 g.tellg.2 (toOff (ds + off)) ht1
    cases ty with
    | fixed w =>
      obtain ⟨hr1, hr2, _⟩ := stream_read_congr _ _ w hs1 hs2
      have hfin := seekg_congr _ _ _ _ hr2 ht2
      simp only [HeaderIterator.read, HeaderIterator.next, hn, decide_True, Bool.not_true,
        Bool.false_eq_true, if_false, hr1, hfin, and_self]
    | text =>
      obtain ⟨hr1, hr2, hr3⟩ := stream_read_congr _ _ 8 hs1 hs2
      simp only [HeaderIterator.read, HeaderIterator.next, hn, decide_True, Bool.not_true,
        Bool.false_eq_true, if_false, hr1]
      by_cases h8 : ((g.tellg.2.seekg (toOff (ds + off))).read 8).1.length = 8
      · simp only [h8, ne_eq, not_true_eq_false, if_false]
        by_cases hmax : string_max_size < fromLe64 ((g.tellg.2.seekg (toOff (ds + off))).read 8).1
        · simp only [hmax, if_true, hr2, and_self]
        · obtain ⟨hq1, hq2, _⟩ := stream_read_congr _ _
            (fromLe64 ((g.tellg.2.seekg (toOff (ds + off))).read 8).1) hr2 hr3
          have hfin := seekg_congr _ _ _ _ hq2 ht2
          simp only [hmax, if_false, hq1, hfin, and_self]
      · simp only [h8, ne_eq, not_false_eq_true, if_true, hr2, and_self]
  · simp [HeaderIterator.read, HeaderIterator.next, hn, h]

theorem tellg_frame (f : FStream) : f.tellg.2.bytes = f.bytes ∧ f.tellg.2.mode = f.mode := by
  unfold FStream.tellg
  split <;> exact ⟨rfl, rfl⟩

theorem seekg_frame (f : FStream) (p : Int) : (f.seekg p).bytes = f.bytes ∧ (f.seekg p).mode = f.mode := by
  unfold FStream.seekg
  simp only
  split
  · exact ⟨rfl, rfl⟩
  · split <;> exact ⟨rfl, rfl⟩

theorem stream_read_frame (f : FStream) (n : Nat) :
    (f.read n).2.bytes = f.bytes ∧ (f.read n).2.mode = f.mode := by
  unfold FStream.read
  simp only
  split
  · exact ⟨rfl, rfl⟩
  · split <;> exact ⟨rfl, rfl⟩

/-- No `read()` changes a byte of the file or the mode of the stream. -/
theorem read_frame (it : HeaderIterator) (f : FStream) :
    (it.read f).2.2.bytes = f.bytes ∧ (it.read f).2.2.mode = f.mode := by
  obtain ⟨ty, ds, dsz, off, wm, sp⟩ := it
  have t := tellg_frame f
  have s1 := seekg_frame f.tellg.2 (toOff (ds + off))
  by_cases hn : off < dsz
  · cases ty with
    | fixed w =>
      have r := stream_read_frame (f.tellg.2.seekg (toOff (ds + off))) w
      have s2 := seekg_frame ((f.tellg.2.seekg (toOff (ds + off))).read w).2 f.tellg.1
      simp only [HeaderIterator.read, HeaderIterator.next, hn, decide_True, Bool.not_true,
        Bool.false_eq_true, if_false]
      exact ⟨by rw [s2.1, r.1, s1.1, t.1], by rw [s2.2, r.2, s1.2, t.2]⟩
    | text =>
      have r := stream_read_frame (f.tellg.2.seekg (toOff (ds + off))) 8
      have r2 := stream_read_frame ((f.tellg.2.seekg (toOff (ds + off))).read 8).2
        (fromLe64 ((f.tellg.2.seekg (toOff (ds + off))).read 8).1)
      have s2 := seekg_frame ((((f.tellg.2.seekg (toOff (ds + off))).read 8).2).read
        (fromLe64 ((f.tellg.2.seekg (toOff (ds + off))).read 8).1)).2 f.tellg.1
      simp only [HeaderIterator.read, HeaderIterator.next, hn, decide_True, Bool.not_true,
        Bool.false_eq_true, if_false]
      split
      · exact ⟨by rw [r.1, s1.1, t.1], by rw [r.2, s1.2, t.2]⟩
      · split
        · exact ⟨by rw [r.1, s1.1, t.1], by rw [r.2, s1.2, t.2]⟩
        · exact ⟨by rw [s2.1, r2.1, r.1, s1.1, t.1], by rw [s2.2, r2.2, r.2, s1.2, t.2]⟩
  · simp [HeaderIterator.read, HeaderIterator.next, hn]

theorem unpos_eq_of_good (f g : FStream) (hb : f.bytes = g.bytes) (hm : f.mode = g.mode)
    (hf : f.good = true) (hg : g.good = true) : f.unpos = g.unpos := by
  obtain ⟨bytes, pos, e, fl, b, m⟩ := f
  obtain ⟨bytes2, pos2, e2, fl2, b2, m2⟩ := g
  simp only [FStream.good, Bool.and_eq_true, Bool.not_eq_true'] at hf hg
  simp only at hb hm
  simp [FStream.unpos, hb, hm, hf.1.1, hf.1.2, hf.2, hg.1.1, hg.1.2, hg.2]

theorem readRounds_succ_stream (it : HeaderIterator) (f : FStream) (k : Nat) :
    (readRounds it f (k + 1)).2.2 = (readRounds (it.read f).2.1 (it.read f).2.2 k).2.2 := rfl

theorem readSeq_succ (it : HeaderIterator) (f : FStream) (k : Nat) :
    readSeq it f (k + 1) = (it.read f).1 :: readSeq (it.read f).2.1 (it.read f).2.2 k := rfl

theorem interleave_alone (sched : List Bool) (a b : HeaderIterator) (g fa fb : FStream)
    (hga : g.unpos = fa.unpos) (hgb : g.unpos = fb.unpos)
    (ha : ∀ k, k ≤ sched.count true → (readRounds a fa k).2.2.good = true)
    (hb : ∀ k, k ≤ sched.count false → (readRounds b fb k).2.2.good = true) :
    (interleave a b g sched).1 = readSeq a fa (sched.count true) ∧
      (interleave a b g sched).2.1 = readSeq b fb (sched.count false) := by
  induction sched generalizing a b g fa fb with
  | nil => exact ⟨rfl, rfl⟩
  | cons x s ih =>
    have hfa : fa.good = true := ha 0 (Nat.zero_le _)
    have hfb : fb.good = true := hb 0 (Nat.zero_le _)
    cases x with
    | true =>
      simp only [List.count_cons_self, List.count_cons_of_ne (by decide : false ≠ true)] at ha hb ⊢
      obtain ⟨c1, c2, c3⟩ := read_congr a g fa hga
      have hgood' : (a.read fa).2.2.good = true := ha 1 (by omega)
      have hfr := read_frame a fa
      have hback : (a.read fa).2.2.unpos = fa.unpos := unpos_eq_of_good _ _ hfr.1 hfr.2 hgood' hfa
      have hnew_b : (a.read g).2.2.unpos = fb.unpos := by rw [c3, hback, ← hga, hgb]
      have := ih (a.read g).2.1 b (a.read g).2.2 (a.read fa).2.2 fb c3 hnew_b
        (fun k hk => by
          rw [c2, ← readRounds_succ_stream]
          exact ha (k + 1) (by omega))
        hb
      rw [c2] at this
      simp only [interleave, readSeq_succ, c1, c2, this, and_self]
    | false =>
      simp only [List.count_cons_self, List.count_cons_of_ne (by decide : true ≠ false)] at ha hb ⊢
      obtain ⟨c1, c2, c3⟩ := read_congr b g fb hgb
      have hgood' : (b.read fb).2.2.good = true := hb 1 (by omega)
      have hfr := read_frame b fb
      have hback : (b.read fb).2.2.unpos = fb.unpos := unpos_eq_of_good _ _ hfr.1 hfr.2 hgood' hfb
      have hnew_a : (b.read g).2.2.unpos = fa.unpos := by rw [c3, hback, ← hgb, hga]
      have := ih a (b.read g).2.1 (b.read g).2.2 fa (b.read fb).2.2 hnew_a c3 ha
        (fun k hk => by
          rw [c2, ← readRounds_succ_stream]
          exact hb (k + 1) (by omega))
      rw [c2] at this
      simp only [interleave, readSeq_succ, c1, c2, this, and_self]

/-- C3, as stated, fails.  `truncated_file` opens in read mode; `a` is the text
cursor of its header `"list"`, `b` the 8-byte cursor of its header `"item1"`.  Driven
alone, `b.read()` returns the stored value; called after one `a.read()` (which runs
past the end of the file and leaves `failbit` set) it returns an indeterminate
value. -/
theorem interleaving_counterexample :
    ∃ cr a b, ConfigCreator.open (some truncated_file) .Read 3 = some (.ok cr) ∧
      cr.header .text str_list = (.ok a, cr) ∧
      cr.header (.fixed 8) str_item1 = (.ok b, cr) ∧
      readSeq b cr.file_ ([true, false].count false) = [.ok (some double_19_35)] ∧
      (interleave a b cr.file_ [true, false]).2.1 = [.ok none] ∧
      (interleave a b cr.file_ [true, false]).2.1 ≠ readSeq b cr.file_ ([true, false].count false) := by
  have h4 : readSeq
      { ty := .fixed 8, data_start_ := 24, data_size_ := 8, offset_ := 0, write_mode_ := false, size_pos_ := 0 }
      (rstream truncated_file 64) ([true, false].count false) = [.ok (some double_19_35)] := rfl
  have h5 : (interleave
      { ty := .text, data_start_ := 52, data_size_ := 12, offset_ := 0, write_mode_ := false, size_pos_ := 0 }
      { ty := .fixed 8, data_start_ := 24, data_size_ := 8, offset_ := 0, write_mode_ := false, size_pos_ := 0 }
      (rstream truncated_file 64) [true, false]).2.1 = [.ok none] := rfl
  refine ⟨{ file_ := rstream truncated_file 64, mode_ := .Read,
            headers_ := [{ name := str_item1, data_size := 8, data_offset := 24 },
                         { name := str_list, data_size := 12, data_offset := 52 }] },
    { ty := .text, data_start_ := 52, data_size_ := 12, offset_ := 0, write_mode_ := false, size_pos_ := 0 },
    { ty := .fixed 8, data_start_ := 24, data_size_ := 8, offset_ := 0, write_mode_ := false, size_pos_ := 0 },
    rfl, rfl, rfl, h4, h5, ?_⟩
  rw [h4, h5]
  simp

/-- C3, amended.  For every stream and every two read cursors on it, every
interleaving of `read()` calls returns, for each cursor, exactly what that cursor
returns when it alone is driven for the same number of calls, provided that, driven
alone, each cursor leaves the stream in the good state after each of those calls (no
`read()` runs past the end of the file). -/
theorem interleaving_independence (a b : HeaderIterator) (f : FStream) (sched : List Bool)
    (ha : ∀ k, k ≤ sched.count true → (readRounds a f k).2.2.good = true)
    (hb : ∀ k, k ≤ sched.count false → (readRounds b f k).2.2.good = true) :
    (interleave a b f sched).1 = readSeq a f (sched.count true) ∧
      (interleave a b f sched).2.1 = readSeq b f (sched.count false) :=
  interleave_alone sched a b f f f rfl rfl ha hb

/-- The amended interleaving property at the reopened example file: two cursors over
`"list"`, driven in the call order of `src/example.cpp`. -/
theorem interleaving_independence_witness :
    (ConfigCreator.open (some (layout [hdr_item1, hdr_item_str, hdr_list])) .Read 4
        = some (.ok { file_ := example_stream, mode_ := .Read,
                      headers_ := entriesFrom 3 [hdr_item1, hdr_item_str, hdr_list] })) ∧
      (find_header (entriesFrom 3 [hdr_item1, hdr_item_str, hdr_list]) str_list).map
          (fun h => HeaderIterator.new .text h.data_offset h.data_size .Read) = some example_cursor ∧
      (interleave example_cursor example_cursor example_stream example_schedule).1
        = readSeq example_cursor example_stream (example_schedule.count true) ∧
      (interleave example_cursor example_cursor example_stream example_schedule).2.1
        = readSeq example_cursor example_stream (example_schedule.count false) :=
  ⟨rfl, rfl,
    interleaving_independence example_cursor example_cursor example_stream example_schedule
      (fun k hk => by
        have hk2 : k ≤ 2 := hk
        interval_cases k <;> rfl)
      (fun k hk => by
        have hk3 : k ≤ 3 := hk
        interval_cases k <;> rfl)⟩

/-! ## Opening for reading -/

theorem parse_headers_not_fileNotValid (fuel : Nat) (f : FStream) (hs : List HeaderInfo) :
    ∀ r, parse_headers fuel f hs = some r → r.1 ≠ .error .fileNotValid := by
  induction fuel generalizing f hs with
  | zero =>
    intro r h
    simp [parse_headers] at h
  | succ k ih =>
    intro r h
    unfold parse_headers at h
    simp only at h
    split at h
    · split at h
      · cases h
        simp
      · cases h
        simp
    · split at h
      · cases h
        simp
      · split at h
        · cases h
          simp
        · split at h
          · cases h
            simp
          · exact ih _ _ r h

theorem read_magic (content : List Byte) :
    ((rstream content 0).read 3).1 = content.take 3 ∧
      (((rstream content 0).read 3).2.fail = true ↔ content.length < 3) := by
  have hlen : (content.take 3).length = min 3 content.length := List.length_take 3 content
  by_cases h : content.length < 3
  · have hne : ¬ 3 ≤ content.length := by omega
    simp [FStream.read, rstream, FStream.good, FStream.fail, hne, h]
  · have heq : 3 ≤ content.length := by omega
    simp [FStream.read, rstream, FStream.good, FStream.fail, heq, h]

/-- C5.  Opening a file in read mode throws "File is not valid" exactly when the
file is shorter than 3 bytes or its first 3 bytes are not `MGE`.  This holds for
every bound on the directory scan, the bound 0 included: when the magic is bad no
scan step runs and no container exists; when the magic is good the magic check does
not fail, whatever the scan then does. -/
theorem magic_validation (content : List Byte) (fuel : Nat) :
    ConfigCreator.open (some content) .Read fuel = some (.error .fileNotValid)
      ↔ (content.length < 3 ∨ content.take 3 ≠ MAGIC) := by
  obtain ⟨h1, h2⟩ := read_magic content
  rw [open_read_eq, h1]
  by_cases hshort : content.length < 3
  · have hf : ((rstream content 0).read 3).2.fail = true := h2.mpr hshort
    simp [hf, hshort]
  · have hf : ((rstream content 0).read 3).2.fail = false := by
      cases hfl : ((rstream content 0).read 3).2.fail
      · rfl
      · exact absurd (h2.mp hfl) hshort
    by_cases hm : content.take 3 = MAGIC
    · simp only [hf, hm, ne_eq, not_true_eq_false, decide_False, Bool.or_self, Bool.false_eq_true,
        if_false, hshort, or_self, iff_false]
      intro hcontra
      cases hp : parse_headers fuel ((rstream content 0).read 3).2 [] with
      | none => simp [hp] at hcontra
      | some r =>
        have hne := parse_headers_not_fileNotValid _ _ _ r hp
        obtain ⟨res, f1, hs⟩ := r
        cases res with
        | error e =>
          simp only [hp, Option.some.injEq, Except.error.injEq] at hcontra
          exact hne (by rw [hcontra])
        | ok u => simp [hp] at hcontra
    · simp [hf, hm, hshort]

/-! ## Lookup -/

theorem find_header_first (pre : List HeaderInfo) (h : HeaderInfo) (post : List HeaderInfo)
    (name : List Byte) (hname : h.name = name) (hfirst : ∀ x ∈ pre, x.name ≠ name) :
    find_header (pre ++ h :: post) name = some h := by
  induction pre with
  | nil => simp [find_header, hname]
  | cons x xs ih =>
    have hx : x.name ≠ name := hfirst x (List.mem_cons_self _ _)
    simp only [List.cons_append, find_header, hx, if_false]
    exact ih (fun y hy => hfirst y (List.mem_cons_of_mem _ hy))

theorem find_header_none_iff (hs : List HeaderInfo) (name : List Byte) :
    find_header hs name = none ↔ ∀ x ∈ hs, x.name ≠ name := by
  induction hs with
  | nil => simp [find_header]
  | cons x xs ih =>
    by_cases hx : x.name = name
    · simp [find_header, hx]
    · simp [find_header, hx, ih]

theorem header_notFound_iff (c : ConfigCreator) (ty : Ty) (name : List Byte) :
    (c.header ty name).1 = .error .headerNotFound ↔ find_header c.headers_ name = none := by
  unfold ConfigCreator.header
  cases hf : find_header c.headers_ name with
  | none => simp
  | some h =>
    cases ty with
    | fixed w =>
      simp only
      split <;> simp
    | text => simp

theorem header_state (c : ConfigCreator) (ty : Ty) (name : List Byte) : (c.header ty name).2 = c := by
  unfold ConfigCreator.header
  cases hf : find_header c.headers_ name with
  | none => rfl
  | some h =>
    cases ty with
    | fixed w =>
      simp only
      split <;> rfl
    | text => rfl

theorem header_ok_of_find (c : ConfigCreator) (ty : Ty) (name : List Byte) (h : HeaderInfo)
    (hf : find_header c.headers_ name = some h) (it : HeaderIterator)
    (hit : (c.header ty name).1 = .ok it) :
    it = HeaderIterator.new ty h.data_offset h.data_size c.mode_ := by
  unfold ConfigCreator.header at hit
  rw [hf] at hit
  cases ty with
  | fixed w =>
    simp only at hit
    split at hit
    · cases hit
    · simp only [Except.ok.injEq] at hit
      exact hit.symm
  | text =>
    simp only [Except.ok.injEq] at hit
    exact hit.symm

/-- C6.  `header<T>(name)` binds to the first directory entry, in file order, whose
name is `name`: whatever follows that entry, a cursor it returns is the one built
from that entry, so a later duplicate is never returned.  It throws "Header not
found" exactly when no entry has the name; it never changes the container (file
bytes, file position, state bits, directory), in particular not when it throws. -/
theorem lookup_first_match (c : ConfigCreator) (ty : Ty) (name : List Byte) :
    (∀ pre h post, c.headers_ = pre ++ h :: post → h.name = name → (∀ x ∈ pre, x.name ≠ name) →
        find_header c.headers_ name = some h ∧
        (c.header ty name).1 ≠ .error .headerNotFound ∧
        ∀ it, (c.header ty name).1 = .ok it →
          it = HeaderIterator.new ty h.data_offset h.data_size c.mode_) ∧
      ((c.header ty name).1 = .error .headerNotFound ↔ ∀ x ∈ c.headers_, x.name ≠ name) ∧
      (c.header ty name).2 = c := by
  refine ⟨?_, ?_, header_state c ty name⟩
  · intro pre h post hdir hname hfirst
    have hf : find_header c.headers_ name = some h := by
      rw [hdir]
      exact find_header_first pre h post name hname hfirst
    refine ⟨hf, ?_, fun it hit => header_ok_of_find c ty name h hf it hit⟩
    rw [Ne, header_notFound_iff, hf]
    simp
  · rw [header_notFound_iff, find_header_none_iff]

/-- The lookup theorem at a directory that holds `"list"` twice, and at a name it does
not hold. -/
theorem lookup_first_match_witness :
    (find_header duplicate_container.headers_ str_list
        = some { name := str_list, data_size := 16, data_offset := 56 } ∧
      (duplicate_container.header .text str_list).1 ≠ .error .headerNotFound ∧
      ∀ it, (duplicate_container.header .text str_list).1 = .ok it →
        it = HeaderIterator.new .text 56 16 .Read) ∧
    ((duplicate_container.header .text str_str1).1 = .error .headerNotFound) :=
  ⟨(lookup_first_match duplicate_container .text str_list).1
      [{ name := str_item1, data_size := 8, data_offset := 24 }]
      { name := str_list, data_size := 16, data_offset := 56 }
      [{ name := str_list, data_size := 41, data_offset := 92 }] rfl rfl (by decide),
   (lookup_first_match duplicate_container .text str_str1).2.1.mpr (by decide)⟩

/-- C7.  For a name present in the directory (its first entry being `h`) and a
fixed-width `T` of `w` bytes, `header<T>(name)` throws "Corrupted header size" if and
only if `h.data_size` is not a multiple of `w`, and otherwise returns the cursor over
that entry; for text it always returns the cursor.  The call touches neither the
stream nor the directory, so the failure is raised at lookup, before any read.  In
particular a header written as text values whose payload length is not a multiple of
`w` is rejected when the reopened file is asked for it as `T`. -/
theorem size_mismatch_at_lookup (c : ConfigCreator) (name : List Byte) (h : HeaderInfo)
    (hfind : find_header c.headers_ name = some h) :
    (∀ w, ((c.header (.fixed w) name).1 = .error .corruptedHeaderSize ↔ h.data_size % w ≠ 0) ∧
        (h.data_size % w = 0 →
          (c.header (.fixed w) name).1 = .ok (HeaderIterator.new (.fixed w) h.data_offset h.data_size c.mode_)) ∧
        (c.header (.fixed w) name).2 = c) ∧
      c.header .text name = (.ok (HeaderIterator.new .text h.data_offset h.data_size c.mode_), c) ∧
      (∀ (pre post : List HeaderSpec) (vals : List (List Byte)) (w fuel : Nat),
        (∀ x ∈ pre, x.name ≠ name) →
        (layout (pre ++ { name := name, ty := .text, values := vals } :: post)).length < 2 ^ 63 →
        pre.length + post.length + 1 < fuel →
        (payload { name := name, ty := .text, values := vals }).length % w ≠ 0 →
        ∃ cr, ConfigCreator.open (some (layout (pre ++ { name := name, ty := .text, values := vals } :: post)))
            .Read fuel = some (.ok cr) ∧
          cr.header (.fixed w) name = (.error .corruptedHeaderSize, cr)) := by
  refine ⟨fun w => ⟨?_, ?_, header_state c _ name⟩, ?_, ?_⟩
  · unfold ConfigCreator.header
    rw [hfind]
    simp only
    split <;> simp_all
  · intro hdiv
    unfold ConfigCreator.header
    rw [hfind]
    simp [hdiv]
  · unfold ConfigCreator.header
    rw [hfind]
  · intro pre post vals w fuel hname hsize hfuel hmod
    obtain ⟨_, _, _, h4⟩ := session_round_trip pre post { name := name, ty := .text, values := vals } fuel hsize hfuel
    have hf := find_header_entriesFrom pre { name := name, ty := .text, values := vals } post 3 hname
    refine ⟨_, h4, ?_⟩
    unfold ConfigCreator.header
    simp only [hf, hmod, ne_eq, not_false_eq_true, if_true]

/-- The size check at the reopened example file: `"list"` (41 bytes) is rejected as an
8-byte type, `"item str"` (16 bytes) is accepted, text lookup succeeds. -/
theorem size_mismatch_at_lookup_witness :
    (example_container.header (.fixed 8) str_list).1 = .error .corruptedHeaderSize ∧
      (example_container.header (.fixed 8) str_item_str).1
        = .ok (HeaderIterator.new (.fixed 8) 56 16 .Read) ∧
      example_container.header .text str_list = (.ok (HeaderIterator.new .text 92 41 .Read), example_container) :=
  ⟨((size_mismatch_at_lookup example_container str_list
        { name := str_list, data_size := 41, data_offset := 92 } rfl).1 8).1.mpr (by decide),
   ((size_mismatch_at_lookup example_container str_item_str
        { name := str_item_str, data_size := 16, data_offset := 56 } rfl).1 8).2.1 (by decide),
   (size_mismatch_at_lookup example_container str_list
        { name := str_list, data_size := 41, data_offset := 92 } rfl).2.1⟩

theorem example_container_opened :
    ConfigCreator.open (some (layout [hdr_item1, hdr_item_str, hdr_list])) .Read 4
      = some (.ok example_container) := rfl

/-! ## Bounds, finalize, mode -/

theorem read_outOfBounds_iff (it : HeaderIterator) (f : FStream) :
    (it.read f).1 = .error .outOfBounds ↔ it.next = false := by
  constructor
  · intro h
    cases hn : it.next with
    | false => rfl
    | true =>
      unfold HeaderIterator.read at h
      simp only [hn, Bool.not_true, Bool.false_eq_true, if_false] at h
      split at h
      · cases h
      · split at h
        · cases h
        · split at h <;> cases h
  · intro h
    rw [read_exhausted it f h]

/-- C8.  `read()` throws "Out of bounds" if and only if `next()` is false, that is,
exactly when `offset_ >= data_size_`; such a `read()` leaves the cursor and the
stream (file position included) as they were.  `next()` is a function of the cursor
alone and changes nothing.  Consequently `read_static<T>(name)` on a header whose
`data_size` is 0 throws "Out of bounds". -/
theorem read_bounds (it : HeaderIterator) (f : FStream) :
    ((it.read f).1 = .error .outOfBounds ↔ it.next = false) ∧
      (it.next = false ↔ it.data_size_ ≤ it.offset_) ∧
      (it.next = false → (it.read f).2 = (it, f)) ∧
      (∀ (c : ConfigCreator) (ty : Ty) (name : List Byte) (h : HeaderInfo),
        find_header c.headers_ name = some h → h.data_size = 0 →
        (c.read_static ty name).1 = .error .outOfBounds) := by
  refine ⟨read_outOfBounds_iff it f, ?_, ?_, ?_⟩
  · simp [HeaderIterator.next]
  · intro h
    rw [read_exhausted it f h]
  · intro c ty name h hfind hzero
    have hnext : (HeaderIterator.new ty h.data_offset h.data_size c.mode_).next = false := by
      rw [hzero]
      cases c.mode_ <;> simp [HeaderIterator.new, HeaderIterator.next]
    unfold ConfigCreator.read_static ConfigCreator.header
    rw [hfind]
    cases ty with
    | fixed w =>
      have hdiv : h.data_size % w = 0 := by rw [hzero]; exact Nat.zero_mod w
      simp only [hdiv, ne_eq, not_true_eq_false, if_false]
      rw [read_exhausted _ _ hnext]
    | text =>
      simp only
      rw [read_exhausted _ _ hnext]

/-- The bounds theorem at the cursor of `"list"`: at offset 0 no bounds error, at
offset 41 the error with nothing changed; and at a header of size 0. -/
theorem read_bounds_witness :
    ((example_cursor.read example_stream).1 ≠ .error .outOfBounds) ∧
      ({ example_cursor with offset_ := 41 }.read example_stream
        = (.error .outOfBounds, { example_cursor with offset_ := 41 }, example_stream)) ∧
      (empty_header_container.read_static (.fixed 8) str_list).1 = .error .outOfBounds :=
  ⟨fun h => absurd ((read_bounds example_cursor example_stream).1.mp h) (by decide),
   Prod.ext ((read_bounds { example_cursor with offset_ := 41 } example_stream).1.mpr rfl)
     ((read_bounds { example_cursor with offset_ := 41 } example_stream).2.2.1 rfl),
   (read_bounds example_cursor example_stream).2.2.2 empty_header_container (.fixed 8) str_list
     { name := str_list, data_size := 0, data_offset := 133 } rfl rfl⟩

set_option maxRecDepth 4000 in
theorem example_finalize :
    example_write_cursor.finalize example_write_stream
      = ({ example_write_cursor with data_size_ := 41, write_mode_ := false },
         wstream (layout [hdr_item1, hdr_item_str, hdr_list])) := rfl

theorem finalize_write_mode (it : HeaderIterator) (f : FStream) : (it.finalize f).1.write_mode_ = false := by
  unfold HeaderIterator.finalize
  cases h : it.write_mode_ <;> simp [h]

/-- C9.  `finalize()` is idempotent: a second call right after the first returns
with the file bytes (the 8-byte size field among them), the file position, the state
bits and the cursor exactly as the first call left them. -/
theorem finalize_idempotent (it : HeaderIterator) (f : FStream) :
    (it.finalize f).1.finalize (it.finalize f).2 = it.finalize f :=
  finalize_read_iterator _ _ (finalize_write_mode it f)

/-- C10.  `addheader<T>(name)` throws "Not in write mode" exactly on a container
opened in read mode, for every name, and then leaves the container (file bytes,
file position, state bits, directory) unchanged; on a container opened in write mode
it never throws that error. -/
theorem addheader_mode (c : ConfigCreator) (ty : Ty) (name : List Byte) :
    (c.mode_ = .Read → c.addheader ty name = (.error .notInWriteMode, c)) ∧
      (c.mode_ = .Write → (c.addheader ty name).1 ≠ .error .notInWriteMode) := by
  constructor
  · intro h
    simp [ConfigCreator.addheader, h]
  · intro h
    unfold ConfigCreator.addheader
    simp only [h, ne_eq, not_true_eq_false, if_false]
    split <;> simp

/-- The mode check at the reopened example file and at a write-mode container. -/
theorem addheader_mode_witness :
    example_container.addheader .text str_list = (.error .notInWriteMode, example_container) ∧
      (ConfigCreator.addheader { file_ := example_write_stream, mode_ := .Write, headers_ := [] }
        .text str_list).1 ≠ .error .notInWriteMode :=
  ⟨(addheader_mode example_container .text str_list).1 rfl,
   (addheader_mode { file_ := example_write_stream, mode_ := .Write, headers_ := [] } .text str_list).2 rfl⟩

/-! ## The directory of a file of records -/

theorem entriesFrom_length (hs : List HeaderSpec) (p : Nat) : (entriesFrom p hs).length = hs.length := by
  induction hs generalizing p with
  | nil => rfl
  | cons h rest ih => simp [entriesFrom, ih]

theorem entriesFrom_getElem (hs : List HeaderSpec) (p i : Nat) (h : HeaderSpec) (hi : hs[i]? = some h) :
    (entriesFrom p hs)[i]?
      = some { name := h.name, data_size := (payload h).length,
               data_offset := p + ((hs.take i).map (fun x => (record x).length)).sum + 16 + h.name.length } := by
  induction hs generalizing p i with
  | nil => simp at hi
  | cons x rest ih =>
    cases i with
    | zero =>
      simp only [List.getElem?_cons_zero, Option.some.injEq] at hi
      subst hi
      simp [entriesFrom]
    | succ j =>
      simp only [List.getElem?_cons_succ] at hi
      simp only [entriesFrom, List.getElem?_cons_succ, ih (p + (record x).length) j hi, List.take_succ_cons,
        List.map_cons, List.sum_cons]
      simp only [Nat.add_assoc]

theorem payload_rawSpec (r : List Byte × List Byte) : payload (rawSpec r) = r.2 := by
  simp [payload, rawSpec, encodeValue]

theorem record_rawSpec (r : List Byte × List Byte) : record (rawSpec r) = rawRecord r := by
  rw [record_eq, payload_rawSpec]
  rfl

theorem layout_rawSpec (rs : List (List Byte × List Byte)) : layout (rs.map rawSpec) = rawFile rs := by
  simp only [layout, rawFile, List.map_map]
  congr 2
  apply List.map_congr_left
  intro r _
  exact record_rawSpec r

theorem rawRecord_length (r : List Byte × List Byte) :
    (rawRecord r).length = 16 + r.1.length + r.2.length := by
  simp only [rawRecord, List.length_append, le64_length]
  omega

/-- C16.  Directory scan correctness.  For every list of records
`(name_i, payload_i)`, opening the file `MGE ++ concat_i (len8 name_i ++ name_i ++
len8 payload_i ++ payload_i)` in read mode returns a container whose directory has
exactly one entry per record, in file order, with `name = name_i`,
`data_size = |payload_i|` and `data_offset = 3 + sum over j < i of
(16 + |name_j| + |payload_j|) + 16 + |name_i|`, the position just after record `i`'s
size field.  (Files are shorter than 2^63 bytes; the scan is given one step per
record and one more.) -/
theorem directory_scan_correct (rs : List (List Byte × List Byte)) (fuel : Nat) (hf : rs.length < fuel)
    (hb : (rawFile rs).length < 2 ^ 63) :
    ∃ cr, ConfigCreator.open (some (rawFile rs)) .Read fuel = some (.ok cr) ∧
      cr.headers_.length = rs.length ∧
      ∀ (i : Nat) (r : List Byte × List Byte), rs[i]? = some r →
        cr.headers_[i]? = some ({ name := r.1, data_size := r.2.length,
                                  data_offset := 3 + recordsBefore rs i + 16 + r.1.length } : HeaderInfo) := by
  have hopen := open_read_layout (rs.map rawSpec) fuel (by simpa using hf) (by rw [layout_rawSpec]; exact hb)
  rw [layout_rawSpec] at hopen
  refine ⟨_, hopen, ?_, ?_⟩
  · simp [entriesFrom_length]
  · intro i r hi
    have hi2 : (rs.map rawSpec)[i]? = some (rawSpec r) := by simp [hi]
    have := entriesFrom_getElem (rs.map rawSpec) 3 i (rawSpec r) hi2
    simp only [this, payload_rawSpec, recordsBefore, ← List.map_take, List.map_map]
    have hfun : ((fun x => (record x).length) ∘ rawSpec)
        = (fun r : List Byte × List Byte => 16 + r.1.length + r.2.length) := by
      funext x
      simp [record_rawSpec, rawRecord_length]
    rw [hfun]
    rfl

/-- The directory scan theorem at the three records of the example file. -/
theorem directory_scan_correct_witness :
    ∃ cr, ConfigCreator.open (some (rawFile example_records)) .Read 4 = some (.ok cr) ∧
      cr.headers_.length = example_records.length ∧
      ∀ (i : Nat) (r : List Byte × List Byte), example_records[i]? = some r →
        cr.headers_[i]? = some ({ name := r.1, data_size := r.2.length,
                                  data_offset := 3 + recordsBefore example_records i + 16 + r.1.length } :
                                HeaderInfo) :=
  directory_scan_correct example_records 4 (by decide) (by
    have h : (rawFile example_records).length = 133 := rfl
    rw [h]
    norm_num)

/-! ## Frame properties of `read()` and `finalize()` -/

/-- C18.  `read()` frame.  On a good read stream at any position `p`, for a cursor
with `next()` true whose next value `v` is stored at absolute position
`data_start_ + offset_` (the bytes there are the encoding of `v`), `read()` returns
`v`, advances that cursor's offset by the decoded length (`sizeof(T)` for a
fixed-width type, `8 + length` for text) and changes nothing else: the stream after
the call is the stream before it, with the same bytes, the same position `p` and the
same state bits.  (Files are shorter than 2^63 bytes.) -/
theorem read_frame_effect (ty : Ty) (bs X v Y : List Byte) (p ds dsz off sp : Nat) (wm : Bool)
    (hfit : ty.fits v = true) (hbs : bs = X ++ encodeValue ty v ++ Y) (hX : ds + off = X.length)
    (hnext : HeaderIterator.next
        { ty := ty, data_start_ := ds, data_size_ := dsz, offset_ := off, write_mode_ := wm,
          size_pos_ := sp } = true)
    (hb : bs.length < 2 ^ 63) :
    HeaderIterator.read
        { ty := ty, data_start_ := ds, data_size_ := dsz, offset_ := off, write_mode_ := wm,
          size_pos_ := sp } (rstream bs p)
      = (.ok (some v),
         { ty := ty, data_start_ := ds, data_size_ := dsz,
           offset_ := off + decodedLength ty v, write_mode_ := wm, size_pos_ := sp }, rstream bs p) ∧
      (bs.drop (ds + off)).take (encodeValue ty v).length = encodeValue ty v := by
  have hn : off < dsz := by simpa [HeaderIterator.next] using hnext
  have hr := read_value_rstream ty bs X v Y p ds dsz off sp wm hfit hbs hX hn hb
  have hlen : (encodeValue ty v).length = decodedLength ty v := by
    cases ty with
    | fixed w =>
      simp only [Ty.fits, Bool.and_eq_true, decide_eq_true_eq] at hfit
      simp [encodeValue, decodedLength, hfit.1]
    | text => simp [encodeValue, decodedLength, le64_length]
  refine ⟨by rw [hr, hlen], ?_⟩
  rw [hbs, hX]
  simp [List.drop_append_eq_append_drop, List.take_append_eq_append_take]

/-- The `read()` frame at the first value of `"list"` in the reopened example file. -/
theorem read_frame_effect_witness :
    HeaderIterator.read example_cursor example_stream
      = (.ok (some str_str1), { example_cursor with offset_ := 0 + decodedLength .text str_str1 },
         example_stream) ∧
      ((layout [hdr_item1, hdr_item_str, hdr_list]).drop (92 + 0)).take (encodeValue .text str_str1).length
        = encodeValue .text str_str1 :=
  read_frame_effect .text (layout [hdr_item1, hdr_item_str, hdr_list])
    (layout [hdr_item1, hdr_item_str] ++ le64 4 ++ str_list ++ le64 41) str_str1
    (encodeValue .text str_str2 ++ encodeValue .text str_something) 133 92 41 0 0 false rfl rfl rfl rfl
    example_layout_small

theorem tellp_wstreamAt (bs : List Byte) (p : Nat) : (wstreamAt bs p).tellp = ((p : Int), wstreamAt bs p) := by
  simp [FStream.tellp, wstreamAt, FStream.good]

theorem finalize_wstreamAt (ty : Ty) (A old R : List Byte) (p ds dsz off : Nat) (hold : old.length = 8)
    (hA : A.length < 2 ^ 63) (hp : p < 2 ^ 63) (hds : ds ≤ p) :
    HeaderIterator.finalize
        { ty := ty, data_start_ := ds, data_size_ := dsz, offset_ := off, write_mode_ := true,
          size_pos_ := A.length } (wstreamAt (A ++ old ++ R) p)
      = ({ ty := ty, data_start_ := ds, data_size_ := p - ds, offset_ := off, write_mode_ := false,
           size_pos_ := A.length }, wstreamAt (A ++ le64 (p - ds) ++ R) p) := by
  have hsz : (p + 2 ^ 64 - ds % 2 ^ 64) % 2 ^ 64 = p - ds := by
    rw [Nat.mod_eq_of_lt (by omega : ds < 2 ^ 64)]
    omega
  simp only [HeaderIterator.finalize, Bool.not_true, Bool.false_eq_true, if_false, tellp_wstreamAt]
  rw [toU64_natCast _ (by omega), hsz, seekp_wstreamAt _ _ _ hA, write_wstreamAt _ _ _ (le64_ne_nil _),
    seekp_wstreamAt _ _ _ hp, overwrite_mid A old (le64 (p - ds)) R (by rw [hold, le64_length])]

theorem writeAll_offset (ty : Ty) (vals : List (List Byte)) (it : HeaderIterator) (f : FStream)
    (hty : it.ty = ty) (hfit : ∀ v ∈ vals, ty.fits v = true)
    (hb : it.offset_ + ((vals.map (encodeValue ty)).flatten).length < 2 ^ 64) :
    (writeAll it f vals).1
      = { it with offset_ := it.offset_ + ((vals.map (encodeValue ty)).flatten).length } := by
  induction vals generalizing it f with
  | nil => simp [writeAll]
  | cons v vs ih =>
    simp only [List.map_cons, List.flatten_cons, List.length_append] at hb
    have hv : ty.fits v = true := hfit v (List.mem_cons_self _ _)
    have hstep : (it.write f v).1 = { it with offset_ := it.offset_ + (encodeValue ty v).length } := by
      obtain ⟨ty0, ds, dsz, off, wm, sp⟩ := it
      simp only at hty
      subst hty
      cases ty0 with
      | fixed w =>
        simp only [Ty.fits, Bool.and_eq_true, decide_eq_true_eq] at hv
        simp only [encodeValue, hv.1] at hb ⊢
        simp only [HeaderIterator.write]
        rw [Nat.mod_eq_of_lt (by omega)]
      | text =>
        simp only [encodeValue, List.length_append, le64_length] at hb ⊢
        simp only [HeaderIterator.write]
        rw [Nat.mod_eq_of_lt (by omega : v.length < 2 ^ 64), Nat.mod_eq_of_lt (by omega)]
    simp only [writeAll, List.map_cons, List.flatten_cons, List.length_append]
    rw [ih (it.write f v).1 (it.write f v).2 (by rw [hstep]; exact hty)
      (fun x hx => hfit x (List.mem_cons_of_mem _ hx)) (by rw [hstep]; simp only; omega), hstep]
    simp only [Nat.add_assoc]

/-- C17.  `finalize()` postcondition and frame.  For an unfinalized write cursor on a
good write stream at position `p`, whose reserved size field is the 8 bytes at
`size_pos_` (the file is `A ++ old ++ R` with `|A| = size_pos_`, `|old| = 8`) and
whose `data_start_` is at most `p`: `finalize()` leaves the file `A ++ le64 (p -
data_start_) ++ R`, so exactly those 8 bytes are overwritten with `p - data_start_`
and every other byte is kept; the file position is `p` again; the cursor records
`data_size_ = p - data_start_` and is no longer in write mode.  When the cursor is the
only live write cursor (it comes from `addheader` on a stream at its end and only its
own values were written since), `p - data_start_` is the cursor's offset, which is
the sum of the encoded lengths of the values written through it.  (Positions are
below 2^63.) -/
theorem finalize_postcondition (ty : Ty) (A old R : List Byte) (p ds dsz off : Nat) (hold : old.length = 8)
    (hA : A.length < 2 ^ 63) (hp : p < 2 ^ 63) (hds : ds ≤ p) :
    HeaderIterator.finalize
        { ty := ty, data_start_ := ds, data_size_ := dsz, offset_ := off, write_mode_ := true,
          size_pos_ := A.length } (wstreamAt (A ++ old ++ R) p)
      = ({ ty := ty, data_start_ := ds, data_size_ := p - ds, offset_ := off, write_mode_ := false,
           size_pos_ := A.length }, wstreamAt (A ++ le64 (p - ds) ++ R) p) ∧
      (∀ (bs name : List Byte) (dir : List HeaderInfo) (vals : List (List Byte)),
        (∀ v ∈ vals, ty.fits v = true) →
        (bs ++ record { name := name, ty := ty, values := vals }).length < 2 ^ 63 →
        ∃ it0 c1 it1 f1,
          ConfigCreator.addheader { file_ := wstream bs, mode_ := .Write, headers_ := dir } ty name
            = (.ok it0, c1) ∧
          writeAll it0 c1.file_ vals = (it1, f1) ∧
          it1.write_mode_ = true ∧
          f1.pos - it1.data_start_ = it1.offset_ ∧
          it1.offset_ = ((vals.map (encodeValue ty)).flatten).length ∧
          (it1.finalize f1).1.data_size_ = it1.offset_ ∧
          (it1.finalize f1).2 = wstream (bs ++ record { name := name, ty := ty, values := vals })) := by
  refine ⟨finalize_wstreamAt ty A old R p ds dsz off hold hA hp hds, ?_⟩
  intro bs name dir vals hfit hsize
  have hrec : (bs ++ record { name := name, ty := ty, values := vals }).length
      = bs.length + 8 + name.length + 8 + ((vals.map (encodeValue ty)).flatten).length := by
    simp only [record_eq, payload, List.length_append, le64_length]
    omega
  rw [hrec] at hsize
  have hadd := addheader_wstream bs name dir ty (by
    simp only [List.length_append, le64_length]
    omega)
  have hvals : ∀ v ∈ vals, v.length < 2 ^ 64 := by
    intro v hv
    have := length_le_payload ty vals v hv
    omega
  have hw2 := writeAll_snd_wstream vals
    { ty := ty, data_start_ := (bs ++ le64 name.length ++ name).length + 8, data_size_ := 0,
      offset_ := 0, write_mode_ := true, size_pos_ := (bs ++ le64 name.length ++ name).length }
    (bs ++ le64 name.length ++ name ++ le64 0) hvals
  have hw1 := writeAll_offset ty vals
    { ty := ty, data_start_ := (bs ++ le64 name.length ++ name).length + 8, data_size_ := 0,
      offset_ := 0, write_mode_ := true, size_pos_ := (bs ++ le64 name.length ++ name).length }
    (wstream (bs ++ le64 name.length ++ name ++ le64 0)) rfl hfit (by simp only; omega)
  simp only [Nat.zero_add] at hw1
  have hfin := finalize_wstream ty (bs ++ le64 name.length ++ name) ((vals.map (encodeValue ty)).flatten) 0
    ((vals.map (encodeValue ty)).flatten).length (by
      simp only [List.length_append, le64_length]
      omega)
  refine ⟨_, _, _, _, hadd, Prod.ext hw1 hw2, rfl, ?_, rfl, ?_, ?_⟩
  · simp only [wstream, List.length_append, le64_length]
    omega
  · exact congrArg (fun r => r.1.data_size_) hfin
  · refine (congrArg Prod.snd hfin).trans ?_
    simp only [record_eq, payload, List.append_assoc]

/-- The `finalize()` theorem at the header `"list"` of the example, just before its
`finalize()`: the size field at 84 receives 41 = 133 - 92. -/
theorem finalize_postcondition_witness :
    example_write_cursor.finalize example_write_stream
      = ({ example_write_cursor with data_size_ := 133 - 92, write_mode_ := false },
         wstreamAt (layout [hdr_item1, hdr_item_str] ++ le64 4 ++ str_list ++ le64 (133 - 92) ++ payload hdr_list)
           133) ∧
      ∃ it0 c1 it1 f1,
        ConfigCreator.addheader
            { file_ := wstream (layout [hdr_item1, hdr_item_str]), mode_ := .Write, headers_ := [] }
            .text str_list = (.ok it0, c1) ∧
          writeAll it0 c1.file_ [str_str1, str_str2, str_something] = (it1, f1) ∧
          it1.write_mode_ = true ∧
          f1.pos - it1.data_start_ = it1.offset_ ∧
          it1.offset_ = (([str_str1, str_str2, str_something].map (encodeValue .text)).flatten).length ∧
          (it1.finalize f1).1.data_size_ = it1.offset_ ∧
          (it1.finalize f1).2 = wstream (layout [hdr_item1, hdr_item_str] ++ record hdr_list) :=
  ⟨(finalize_postcondition .text (layout [hdr_item1, hdr_item_str] ++ le64 4 ++ str_list) (le64 0)
      (payload hdr_list) 133 92 0 41 rfl (by
        have h : (layout [hdr_item1, hdr_item_str] ++ le64 4 ++ str_list).length = 84 := rfl
        rw [h]
        norm_num) (by norm_num) (by norm_num)).1,
   (finalize_postcondition .text (layout [hdr_item1, hdr_item_str] ++ le64 4 ++ str_list) (le64 0)
      (payload hdr_list) 133 92 0 41 rfl (by
        have h : (layout [hdr_item1, hdr_item_str] ++ le64 4 ++ str_list).length = 84 := rfl
        rw [h]
        norm_num) (by norm_num) (by norm_num)).2
      (layout [hdr_item1, hdr_item_str]) str_list [] [str_str1, str_str2, str_something]
      (fun _ _ => rfl) (by
        have h : (layout [hdr_item1, hdr_item_str] ++ record hdr_list).length = 133 := rfl
        exact h ▸ (by norm_num))⟩

/-! ## Scanning a file whose tail is not a whole record -/

theorem read_rstream_short (bs X t : List Byte) (p n : Nat) (hbs : bs = X ++ t) (hp : p = X.length)
    (hn : t.length < n) :
    (rstream bs p).read n
      = (t, { bytes := bs, pos := p + t.length, eofbit := true, failbit := true, badbit := false,
              mode := .Read }) := by
  subst hbs hp
  have h1 : List.take n t = t := List.take_of_length_le (by omega)
  have h2 : ¬ t.length = n := by omega
  simp [FStream.read, rstream, FStream.good, h1, h2]

theorem read_rstream_past (bs : List Byte) (p n : Nat) (hp : bs.length ≤ p) (hn : 0 < n) :
    (rstream bs p).read n
      = ([], { bytes := bs, pos := p, eofbit := true, failbit := true, badbit := false, mode := .Read }) := by
  have h1 : List.drop p bs = [] := List.drop_of_length_le hp
  have h2 : ¬ 0 = n := by omega
  simp [FStream.read, rstream, FStream.good, h1, h2]

theorem parse_headers_step (bs A name R : List Byte) (dsz k : Nat) (acc : List HeaderInfo)
    (hbs : bs = A ++ (le64 name.length ++ name ++ le64 dsz) ++ R) (hb : bs.length < 2 ^ 63)
    (hd : dsz < 2 ^ 64) :
    parse_headers (k + 1) (rstream bs A.length) acc
      = parse_headers k ((rstream bs (A.length + 16 + name.length)).seekgCur (toOff dsz))
          (acc ++ [{ name := name, data_size := dsz, data_offset := A.length + 16 + name.length }]) := by
  have hlen : bs.length = A.length + 8 + name.length + 8 + R.length := by
    rw [hbs]
    simp only [List.length_append, le64_length]
    omega
  have e1 := read_rstream bs A (le64 name.length) (name ++ le64 dsz ++ R) A.length 8
    (by rw [hbs]; simp only [List.append_assoc]) rfl rfl
  have e2 := read_rstream bs (A ++ le64 name.length) name (le64 dsz ++ R) (A.length + 8) name.length
    (by rw [hbs]; simp only [List.append_assoc]) (by simp only [List.length_append, le64_length]) rfl
  have e3 := read_rstream bs (A ++ le64 name.length ++ name) (le64 dsz) R (A.length + 8 + name.length) 8
    (by rw [hbs]; simp only [List.append_assoc]) (by simp only [List.length_append, le64_length]) rfl
  have hns : ¬ string_max_size < name.length := by
    unfold string_max_size
    omega
  have hoff : A.length + 8 + name.length + 8 = A.length + 16 + name.length := by omega
  simp only [parse_headers, e1, fail_rstream, Bool.false_eq_true, if_false,
    fromLe64_le64 name.length (by omega), hns, e2, e3, fromLe64_le64 dsz hd, tellg_rstream,
    toU64_natCast _ (by omega : A.length + 8 + name.length + 8 < 2 ^ 64)]
  rw [hoff]

theorem parse_headers_whole_records (hs : List HeaderSpec) (A tail : List Byte) (acc : List HeaderInfo) (k : Nat)
    (hb : (A ++ (hs.map record).flatten ++ tail).length < 2 ^ 63) :
    parse_headers (hs.length + k) (rstream (A ++ (hs.map record).flatten ++ tail) A.length) acc
      = parse_headers k
          (rstream (A ++ (hs.map record).flatten ++ tail) (A ++ (hs.map record).flatten).length)
          (acc ++ entriesFrom A.length hs) := by
  induction hs generalizing A acc with
  | nil => simp [entriesFrom]
  | cons h rest ih =>
    have hfuel : (h :: rest).length + k = (rest.length + k) + 1 := by
      simp only [List.length_cons]
      omega
    simp only [List.map_cons, List.flatten_cons] at hb ⊢
    generalize hR : (rest.map record).flatten = R at hb ⊢
    have hlen : (A ++ (record h ++ R) ++ tail).length
        = A.length + 8 + h.name.length + 8 + (payload h).length + R.length + tail.length := by
      simp only [record_eq, List.length_append, le64_length]
      omega
    rw [hlen] at hb
    have hstep := parse_headers_step (A ++ (record h ++ R) ++ tail) A h.name (payload h ++ R ++ tail)
      (payload h).length (rest.length + k) acc (by simp only [record_eq, List.append_assoc])
      (by rw [hlen]; exact hb) (by omega)
    have hseek := seekgCur_rstream (A ++ (record h ++ R) ++ tail) (A.length + 16 + h.name.length)
      (payload h).length (by omega)
    have hpos : A.length + 16 + h.name.length + (payload h).length = (A ++ record h).length := by
      simp only [record_eq, List.length_append, le64_length]
      omega
    have hnext := ih (A ++ record h) (acc ++
      [{ name := h.name, data_size := (payload h).length, data_offset := A.length + 16 + h.name.length }])
      (by
        rw [hR]
        have : A ++ record h ++ R ++ tail = A ++ (record h ++ R) ++ tail := by
          simp only [List.append_assoc]
        rw [this, hlen]
        exact hb)
    rw [hR] at hnext
    have hassoc : A ++ record h ++ R = A ++ (record h ++ R) := List.append_assoc _ _ _
    rw [hassoc] at hnext
    rw [hfuel, hstep, hseek, hpos, hnext, List.length_append A (record h)]
    simp only [entriesFrom, List.append_assoc, List.singleton_append]

theorem parse_headers_tail_eof (bs X t : List Byte) (k : Nat) (acc : List HeaderInfo) (hbs : bs = X ++ t)
    (ht : t.length < 8) :
    parse_headers (k + 1) (rstream bs X.length) acc = some (.ok (), rstream bs bs.length, acc) := by
  have e := read_rstream_short bs X t X.length 8 hbs rfl ht
  have hl : X.length + t.length = bs.length := by
    rw [hbs]
    simp only [List.length_append]
  simp only [parse_headers, e, FStream.fail, FStream.eof, FStream.clear, Bool.or_false, if_true, hl]
  rfl

theorem parse_headers_past_eof (bs : List Byte) (p k : Nat) (acc : List HeaderInfo) (hp : bs.length ≤ p) :
    parse_headers (k + 1) (rstream bs p) acc = some (.ok (), rstream bs p, acc) := by
  have e := read_rstream_past bs p 8 hp (by decide)
  simp only [parse_headers, e, FStream.fail, FStream.eof, FStream.clear, Bool.or_false, if_true]
  rfl

theorem open_read_whole_records (hs : List HeaderSpec) (tail : List Byte) (k : Nat)
    (hb : (layout hs ++ tail).length < 2 ^ 63) :
    ConfigCreator.open (some (layout hs ++ tail)) .Read (hs.length + k)
      = match parse_headers k (rstream (layout hs ++ tail) (layout hs).length) (entriesFrom 3 hs) with
        | none => none
        | some (.error e, _, _) => some (.error e)
        | some (.ok (), f1, dir) => some (.ok { file_ := f1, mode_ := .Read, headers_ := dir }) := by
  have e := read_rstream (layout hs ++ tail) [] MAGIC ((hs.map record).flatten ++ tail) 0 3
    (by simp [layout, List.append_assoc]) rfl rfl
  have hp := parse_headers_whole_records hs MAGIC tail [] k hb
  have h3 : MAGIC.length = 3 := rfl
  rw [h3] at hp
  rw [open_read_eq, e]
  simp only [fail_rstream, ne_eq, not_true_eq_false, decide_False, Bool.or_self, Bool.false_eq_true,
    if_false, Nat.zero_add]
  unfold layout
  rw [hp]
  simp only [List.nil_append]

theorem fail_eof_stream (bs : List Byte) (p : Nat) :
    ({ bytes := bs, pos := p, eofbit := true, failbit := true, badbit := false, mode := .Read } : FStream).fail
      = true := rfl

/-- A name cut short is rejected with "Failed to read header name" when its declared
length is one a `std::string` can take, and a size field cut short is rejected with
"Failed to read header size". -/
theorem truncated_record_rejected (hs : List HeaderSpec) (k n : Nat) (part name part2 : List Byte)
    (hn : part.length < n) (hmax : n ≤ string_max_size) (h2 : part2.length < 8)
    (hb1 : (layout hs ++ (le64 n ++ part)).length < 2 ^ 63)
    (hb2 : (layout hs ++ (le64 name.length ++ name ++ part2)).length < 2 ^ 63) :
    ConfigCreator.open (some (layout hs ++ (le64 n ++ part))) .Read (hs.length + (k + 1))
        = some (.error .failedReadName) ∧
      ConfigCreator.open (some (layout hs ++ (le64 name.length ++ name ++ part2))) .Read (hs.length + (k + 1))
        = some (.error .failedReadSize) := by
  have hn64 : n < 2 ^ 64 := by
    unfold string_max_size at hmax
    omega
  constructor
  · rw [open_read_whole_records hs _ (k + 1) hb1]
    have e1 := read_rstream (layout hs ++ (le64 n ++ part)) (layout hs) (le64 n) part (layout hs).length 8
      (by simp only [List.append_assoc]) rfl rfl
    have e2 := read_rstream_short (layout hs ++ (le64 n ++ part)) (layout hs ++ le64 n) part
      ((layout hs).length + 8) n (by simp only [List.append_assoc])
      (by simp only [List.length_append, le64_length]) hn
    simp only [parse_headers, e1, fail_rstream, Bool.false_eq_true, if_false, fromLe64_le64 n hn64,
      Nat.not_lt.mpr hmax, e2, fail_eof_stream, if_true]
  · rw [open_read_whole_records hs _ (k + 1) hb2]
    have hlen : (layout hs ++ (le64 name.length ++ name ++ part2)).length
        = (layout hs).length + 8 + name.length + part2.length := by
      simp only [List.length_append, le64_length]
      omega
    rw [hlen] at hb2
    have hns : ¬ string_max_size < name.length := by
      unfold string_max_size
      omega
    have e1 := read_rstream (layout hs ++ (le64 name.length ++ name ++ part2)) (layout hs)
      (le64 name.length) (name ++ part2) (layout hs).length 8 (by simp only [List.append_assoc]) rfl rfl
    have e2 := read_rstream (layout hs ++ (le64 name.length ++ name ++ part2)) (layout hs ++ le64 name.length)
      name part2 ((layout hs).length + 8) name.length (by simp only [List.append_assoc])
      (by simp only [List.length_append, le64_length]) rfl
    have e3 := read_rstream_short (layout hs ++ (le64 name.length ++ name ++ part2))
      (layout hs ++ le64 name.length ++ name) part2 ((layout hs).length + 8 + name.length) 8
      (by simp only [List.append_assoc]) (by simp only [List.length_append, le64_length]) h2
    simp only [parse_headers, e1, fail_rstream, Bool.false_eq_true, if_false,
      fromLe64_le64 name.length (by omega), hns, e2, e3, fail_eof_stream, if_true]

/-- C11, the code at the failing input.  `huge_name_file` ends inside the name of its
second record, whose declared length is `2^64 - 1`; the constructor ends with
`std::length_error` from `std::string name(name_size, 0)`, before the name is read,
and not with one of the format errors of `parse_headers`. -/
theorem huge_name_length_error :
    ConfigCreator.open (some huge_name_file) .Read 2 = some (.error .lengthError) ∧
      fromLe64 (le64 (2 ^ 64 - 1)) = 2 ^ 64 - 1 ∧ str_list.length < 2 ^ 64 - 1 := by
  refine ⟨rfl, by decide, by decide⟩

/-- Trailing bytes that are not a whole name-length field end the scan normally: a
file of whole records followed by fewer than 8 bytes opens, with the directory of
the whole records. -/
theorem trailing_bytes_open (hs : List HeaderSpec) (tail : List Byte) (k : Nat) (ht : tail.length < 8)
    (hb : (layout hs ++ tail).length < 2 ^ 63) :
    ConfigCreator.open (some (layout hs ++ tail)) .Read (hs.length + (k + 1))
      = some (.ok { file_ := rstream (layout hs ++ tail) (layout hs ++ tail).length, mode_ := .Read,
                    headers_ := entriesFrom 3 hs }) := by
  rw [open_read_whole_records hs tail (k + 1) hb,
    parse_headers_tail_eof (layout hs ++ tail) (layout hs) tail k (entriesFrom 3 hs) rfl ht]

/-- C13, the code at the failing input.  `trailing_bytes_file` has 3 bytes left where
the 8-byte name length of a second record is expected; the constructor returns a
container (directory: the one whole record) instead of throwing. -/
theorem trailing_bytes_accepted :
    ConfigCreator.open (some trailing_bytes_file) .Read 2
      = some (.ok { file_ := rstream trailing_bytes_file 35, mode_ := .Read,
                    headers_ := [{ name := str_item1, data_size := 8, data_offset := 24 }] }) ∧
      trailing_bytes_file.length = 32 + 3 := by
  exact ⟨rfl, rfl⟩

/-- C12, as stated, fails.  In `truncated_file` the last record declares 12 payload
bytes at offset 52, past the 62 bytes of the file; the constructor returns a
container whose directory lists that record. -/
theorem oversized_payload_counterexample :
    ConfigCreator.open (some truncated_file) .Read 3
        = some (.ok { file_ := rstream truncated_file 64, mode_ := .Read,
                      headers_ := [{ name := str_item1, data_size := 8, data_offset := 24 },
                                   { name := str_list, data_size := 12, data_offset := 52 }] }) ∧
      truncated_file.length = 62 ∧ truncated_file.length < 52 + 12 := by
  refine ⟨rfl, rfl, by decide⟩

theorem seekgCurWithin_max (f : FStream) (off : Int) :
    f.seekgCurWithin (2 ^ 63 - 1) off = f.seekgCur off := by
  have h : ∀ t : Int, (0 ≤ t ∧ t ≤ ((2 ^ 63 - 1 : Nat) : Int)) ↔ (0 ≤ t ∧ t < (2 : Int) ^ 63) := by
    intro t
    constructor <;> intro ⟨h1, h2⟩ <;> exact ⟨h1, by omega⟩
  simp only [FStream.seekgCurWithin, FStream.seekgCur, h]

theorem parse_headers_within_max (fuel : Nat) (f : FStream) (hs : List HeaderInfo) :
    parse_headers_within (2 ^ 63 - 1) fuel f hs = parse_headers fuel f hs := by
  induction fuel generalizing f hs with
  | zero => rfl
  | succ k ih => simp only [parse_headers_within, parse_headers, seekgCurWithin_max, ih]

theorem openWithin_max (disk : Option (List Byte)) (mode : Mode) (fuel : Nat) :
    ConfigCreator.openWithin (2 ^ 63 - 1) disk mode fuel = ConfigCreator.open disk mode fuel := by
  cases mode with
  | Write => rfl
  | Read =>
    cases disk with
    | none => rfl
    | some content => simp only [ConfigCreator.openWithin, ConfigCreator.open, parse_headers_within_max]

theorem seekgCurWithin_rstream (M : Nat) (bs : List Byte) (p n : Nat) (hM : M < 2 ^ 63) (h : p + n ≤ M) :
    (rstream bs p).seekgCurWithin M (toOff n) = rstream bs (p + n) := by
  rw [toOff_small n (by omega)]
  have h1 : (0 : Int) ≤ (p : Int) + (n : Int) ∧ (p : Int) + (n : Int) ≤ (M : Int) := by
    constructor <;> omega
  have h2 : ((p : Int) + (n : Int)).toNat = p + n := by omega
  simp only [FStream.seekgCurWithin, rstream, FStream.good, Bool.not_false, Bool.and_self, Bool.not_true,
    Bool.false_eq_true, if_false, h1, and_self, if_true, h2]

theorem seekgCurWithin_rstream_refused (M : Nat) (bs : List Byte) (p n : Nat) (hn : n < 2 ^ 63)
    (h : M < p + n) :
    (rstream bs p).seekgCurWithin M (toOff n)
      = { bytes := bs, pos := p, eofbit := false, failbit := true, badbit := false, mode := .Read } := by
  rw [toOff_small n hn]
  have h1 : ¬ ((0 : Int) ≤ (p : Int) + (n : Int) ∧ (p : Int) + (n : Int) ≤ (M : Int)) := by
    intro hc
    omega
  simp only [FStream.seekgCurWithin, rstream, FStream.good, Bool.not_false, Bool.and_self, Bool.not_true,
    Bool.false_eq_true, if_false, h1]

theorem parse_headers_within_step (M : Nat) (bs A name R : List Byte) (dsz k : Nat) (acc : List HeaderInfo)
    (hbs : bs = A ++ (le64 name.length ++ name ++ le64 dsz) ++ R) (hb : bs.length < 2 ^ 63)
    (hd : dsz < 2 ^ 64) :
    parse_headers_within M (k + 1) (rstream bs A.length) acc
      = parse_headers_within M k ((rstream bs (A.length + 16 + name.length)).seekgCurWithin M (toOff dsz))
          (acc ++ [{ name := name, data_size := dsz, data_offset := A.length + 16 + name.length }]) := by
  have hlen : bs.length = A.length + 8 + name.length + 8 + R.length := by
    rw [hbs]
    simp only [List.length_append, le64_length]
    omega
  have e1 := read_rstream bs A (le64 name.length) (name ++ le64 dsz ++ R) A.length 8
    (by rw [hbs]; simp only [List.append_assoc]) rfl rfl
  have e2 := read_rstream bs (A ++ le64 name.length) name (le64 dsz ++ R) (A.length + 8) name.length
    (by rw [hbs]; simp only [List.append_assoc]) (by simp only [List.length_append, le64_length]) rfl
  have e3 := read_rstream bs (A ++ le64 name.length ++ name) (le64 dsz) R (A.length + 8 + name.length) 8
    (by rw [hbs]; simp only [List.append_assoc]) (by simp only [List.length_append, le64_length]) rfl
  have hns : ¬ string_max_size < name.length := by
    unfold string_max_size
    omega
  have hoff : A.length + 8 + name.length + 8 = A.length + 16 + name.length := by omega
  simp only [parse_headers_within, e1, fail_rstream, Bool.false_eq_true, if_false,
    fromLe64_le64 name.length (by omega), hns, e2, e3, fromLe64_le64 dsz hd, tellg_rstream,
    toU64_natCast _ (by omega : A.length + 8 + name.length + 8 < 2 ^ 64)]
  rw [hoff]

theorem parse_headers_within_whole_records (M : Nat) (hs : List HeaderSpec) (A tail : List Byte)
    (acc : List HeaderInfo) (k : Nat) (hM : M < 2 ^ 63)
    (hb : (A ++ (hs.map record).flatten ++ tail).length ≤ M) :
    parse_headers_within M (hs.length + k) (rstream (A ++ (hs.map record).flatten ++ tail) A.length) acc
      = parse_headers_within M k
          (rstream (A ++ (hs.map record).flatten ++ tail) (A ++ (hs.map record).flatten).length)
          (acc ++ entriesFrom A.length hs) := by
  induction hs generalizing A acc with
  | nil => simp [entriesFrom]
  | cons h rest ih =>
    have hfuel : (h :: rest).length + k = (rest.length + k) + 1 := by
      simp only [List.length_cons]
      omega
    simp only [List.map_cons, List.flatten_cons] at hb ⊢
    generalize hR : (rest.map record).flatten = R at hb ⊢
    have hlen : (A ++ (record h ++ R) ++ tail).length
        = A.length + 8 + h.name.length + 8 + (payload h).length + R.length + tail.length := by
      simp only [record_eq, List.length_append, le64_length]
      omega
    rw [hlen] at hb
    have hstep := parse_headers_within_step M (A ++ (record h ++ R) ++ tail) A h.name
      (payload h ++ R ++ tail) (payload h).length (rest.length + k) acc
      (by simp only [record_eq, List.append_assoc]) (by rw [hlen]; omega) (by omega)
    have hseek := seekgCurWithin_rstream M (A ++ (record h ++ R) ++ tail) (A.length + 16 + h.name.length)
      (payload h).length hM (by omega)
    have hpos : A.length + 16 + h.name.length + (payload h).length = (A ++ record h).length := by
      simp only [record_eq, List.length_append, le64_length]
      omega
    have hnext := ih (A ++ record h) (acc ++
      [{ name := h.name, data_size := (payload h).length, data_offset := A.length + 16 + h.name.length }])
      (by
        rw [hR]
        have : A ++ record h ++ R ++ tail = A ++ (record h ++ R) ++ tail := by
          simp only [List.append_assoc]
        rw [this, hlen]
        exact hb)
    rw [hR] at hnext
    have hassoc : A ++ record h ++ R = A ++ (record h ++ R) := List.append_assoc _ _ _
    rw [hassoc] at hnext
    rw [hfuel, hstep, hseek, hpos, hnext, List.length_append A (record h)]
    simp only [entriesFrom, List.append_assoc, List.singleton_append]

theorem parse_headers_within_past_eof (M : Nat) (bs : List Byte) (p k : Nat) (acc : List HeaderInfo)
    (hp : bs.length ≤ p) :
    parse_headers_within M (k + 1) (rstream bs p) acc = some (.ok (), rstream bs p, acc) := by
  have e := read_rstream_past bs p 8 hp (by decide)
  simp only [parse_headers_within, e, FStream.fail, FStream.eof, FStream.clear, Bool.or_false, if_true]
  rfl

theorem parse_headers_within_failed_stream (M : Nat) (bs : List Byte) (p k : Nat) (acc : List HeaderInfo) :
    parse_headers_within M (k + 1)
        { bytes := bs, pos := p, eofbit := false, failbit := true, badbit := false, mode := .Read } acc
      = some (.error .corruptedNameSize,
          { bytes := bs, pos := p, eofbit := false, failbit := true, badbit := false, mode := .Read }, acc) := by
  simp [parse_headers_within, FStream.read, FStream.good, FStream.fail, FStream.eof]

theorem openWithin_read_eq (M : Nat) (content : List Byte) (fuel : Nat) :
    ConfigCreator.openWithin M (some content) .Read fuel
      = if ((rstream content 0).read 3).2.fail || decide (((rstream content 0).read 3).1 ≠ MAGIC) then
          some (.error .fileNotValid)
        else
          match parse_headers_within M fuel ((rstream content 0).read 3).2 [] with
          | none => none
          | some (.error e, _, _) => some (.error e)
          | some (.ok (), f1, hs) => some (.ok { file_ := f1, mode_ := .Read, headers_ := hs }) := rfl

theorem openWithin_whole_records (M : Nat) (hs : List HeaderSpec) (tail : List Byte) (k : Nat)
    (hM : M < 2 ^ 63) (hb : (layout hs ++ tail).length ≤ M) :
    ConfigCreator.openWithin M (some (layout hs ++ tail)) .Read (hs.length + k)
      = match parse_headers_within M k (rstream (layout hs ++ tail) (layout hs).length) (entriesFrom 3 hs) with
        | none => none
        | some (.error e, _, _) => some (.error e)
        | some (.ok (), f1, dir) => some (.ok { file_ := f1, mode_ := .Read, headers_ := dir }) := by
  have e := read_rstream (layout hs ++ tail) [] MAGIC ((hs.map record).flatten ++ tail) 0 3
    (by simp [layout, List.append_assoc]) rfl rfl
  have hp := parse_headers_within_whole_records M hs MAGIC tail [] k hM hb
  have h3 : MAGIC.length = 3 := rfl
  rw [h3] at hp
  rw [openWithin_read_eq, e]
  simp only [fail_rstream, ne_eq, not_true_eq_false, decide_False, Bool.or_self, Bool.false_eq_true,
    if_false, Nat.zero_add]
  unfold layout
  rw [hp]
  simp only [List.nil_append]

/-- C12, amended.  Let `M` be the largest offset of the file system (below 2^63; the
file itself is not longer than `M`).  A file of whole records followed by a last
record whose declared data size `S` (below 2^63) runs past the end of the file is
not rejected when the seek over the payload succeeds, that is when
`data_offset + S <= M`: the next read meets end of file, the scan ends normally and
the directory lists the record with `data_size = S`.  It is rejected, with
"Corrupted header (name_size)", when the seek fails, that is when
`data_offset + S > M`: the next read of a name length then fails without end of
file. -/
theorem oversized_last_record (M : Nat) (hs : List HeaderSpec) (name part : List Byte) (S k : Nat)
    (hM : M < 2 ^ 63) (hpart : part.length < S) (hS : S < 2 ^ 63)
    (hb : (layout hs ++ (le64 name.length ++ name ++ le64 S ++ part)).length ≤ M) :
    ((layout hs).length + 16 + name.length + S ≤ M →
        ConfigCreator.openWithin M (some (layout hs ++ (le64 name.length ++ name ++ le64 S ++ part))) .Read
            (hs.length + (k + 2))
          = some (.ok { file_ := rstream (layout hs ++ (le64 name.length ++ name ++ le64 S ++ part))
                                   ((layout hs).length + 16 + name.length + S),
                        mode_ := .Read,
                        headers_ := entriesFrom 3 hs ++
                          [{ name := name, data_size := S,
                             data_offset := (layout hs).length + 16 + name.length }] })) ∧
      (M < (layout hs).length + 16 + name.length + S →
        ConfigCreator.openWithin M (some (layout hs ++ (le64 name.length ++ name ++ le64 S ++ part))) .Read
            (hs.length + (k + 2))
          = some (.error .corruptedNameSize)) := by
  have hlen : (layout hs ++ (le64 name.length ++ name ++ le64 S ++ part)).length
      = (layout hs).length + 16 + name.length + part.length := by
    simp only [List.length_append, le64_length]
    omega
  have hstep := parse_headers_within_step M (layout hs ++ (le64 name.length ++ name ++ le64 S ++ part))
    (layout hs) name part S (k + 1) (entriesFrom 3 hs) (by simp only [List.append_assoc]) (by omega)
    (by omega)
  rw [openWithin_whole_records M hs _ (k + 2) hM hb, hstep]
  constructor
  · intro hin
    rw [seekgCurWithin_rstream M _ _ _ hM hin, parse_headers_within_past_eof M _ _ k _ (by rw [hlen]; omega)]
  · intro hout
    rw [seekgCurWithin_rstream_refused M _ _ _ hS hout, parse_headers_within_failed_stream]

/-- The amended C12 on an ext4 file system: the 62-byte file whose last record
declares 12 payload bytes and holds 10 opens; the 54-byte file whose last record
declares 2^62 payload bytes is rejected. -/
theorem oversized_last_record_witness :
    ConfigCreator.openWithin ext4_max_offset (some (layout [hdr_item1] ++ (le64 str_list.length ++ str_list
        ++ le64 12 ++ (le64 4 ++ [115, 116])))) .Read ([hdr_item1].length + (0 + 2))
      = some (.ok { file_ := rstream (layout [hdr_item1] ++ (le64 str_list.length ++ str_list ++ le64 12 ++
                                 (le64 4 ++ [115, 116])))
                               ((layout [hdr_item1]).length + 16 + str_list.length + 12),
                    mode_ := .Read,
                    headers_ := entriesFrom 3 [hdr_item1] ++
                      [{ name := str_list, data_size := 12,
                         data_offset := (layout [hdr_item1]).length + 16 + str_list.length }] }) ∧
      ConfigCreator.openWithin ext4_max_offset (some (layout [hdr_item1] ++ (le64 str_list.length ++ str_list
          ++ le64 (2 ^ 62) ++ [115, 116]))) .Read ([hdr_item1].length + (0 + 2))
        = some (.error .corruptedNameSize) :=
  ⟨(oversized_last_record ext4_max_offset [hdr_item1] str_list (le64 4 ++ [115, 116]) 12 0
      (by norm_num [ext4_max_offset]) (by decide) (by norm_num)
      (by
        have h : (layout [hdr_item1] ++ (le64 str_list.length ++ str_list ++ le64 12 ++
          (le64 4 ++ [115, 116]))).length = 62 := rfl
        rw [h]
        norm_num [ext4_max_offset])).1
      (by
        have h : (layout [hdr_item1]).length + 16 + str_list.length + 12 = 64 := rfl
        rw [h]
        norm_num [ext4_max_offset]),
   (oversized_last_record ext4_max_offset [hdr_item1] str_list [115, 116] (2 ^ 62) 0
      (by norm_num [ext4_max_offset]) (by norm_num) (by norm_num)
      (by
        have h : (layout [hdr_item1] ++ (le64 str_list.length ++ str_list ++ le64 (2 ^ 62) ++
          [115, 116])).length = 54 := rfl
        rw [h]
        norm_num [ext4_max_offset])).2
      (by
        have h : (layout [hdr_item1]).length + 16 + str_list.length = 52 := rfl
        rw [h]
        norm_num [ext4_max_offset])⟩

/-! ## Writing through a cursor of a read container -/

/-- C14, the code at the failing input.  On the reopened example file the cursor
`header<std::string>("list")` is asked to `write("str1")`: the call returns normally
(`write` has no exception in its result), the cursor's offset goes from 0 to 12, and
the shared stream is left with `badbit` and `failbit` set; only the file bytes and
the file position are as before. -/
theorem write_on_read_cursor :
    example_container.header .text str_list = (.ok example_cursor, example_container) ∧
      example_cursor.write example_container.file_ str_str1
        = ({ example_cursor with offset_ := 12 },
           { example_stream with failbit := true, badbit := true }) ∧
      example_cursor.offset_ = 0 := by
  exact ⟨rfl, rfl, rfl⟩

/-! ## The directory of a write-mode container -/

theorem addheader_headers (c : ConfigCreator) (ty : Ty) (name : List Byte) :
    (c.addheader ty name).2.headers_ = c.headers_ := by
  unfold ConfigCreator.addheader
  split
  · rfl
  · simp only
    split <;> rfl

theorem additem_headers (c : ConfigCreator) (ty : Ty) (name v : List Byte) :
    (c.additem ty name v).2.headers_ = c.headers_ := by
  have h := addheader_headers c ty name
  unfold ConfigCreator.additem
  cases hr : c.addheader ty name with
  | mk r c1 =>
    rw [hr] at h
    cases r with
    | error e => exact h
    | ok it => exact h

theorem runOp_headers (s : ConfigCreator × List HeaderIterator) (op : WriteOp) :
    (runOp s op).1.headers_ = s.1.headers_ := by
  cases op with
  | addheader ty name =>
    have h := addheader_headers s.1 ty name
    simp only [runOp]
    cases hr : s.1.addheader ty name with
    | mk r c1 =>
      rw [hr] at h
      cases r with
      | error e => exact h
      | ok it => exact h
  | write i v =>
    simp only [runOp]
    cases s.2[i]? <;> rfl
  | finalize i =>
    simp only [runOp]
    cases s.2[i]? <;> rfl
  | additem ty name v => exact additem_headers s.1 ty name v

theorem runOps_headers (ops : List WriteOp) (s : ConfigCreator × List HeaderIterator) :
    (runOps s ops).1.headers_ = s.1.headers_ := by
  induction ops generalizing s with
  | nil => rfl
  | cons op rest ih =>
    simp only [runOps, List.foldl_cons] at ih ⊢
    rw [ih (runOp s op), runOp_headers]

/-- C20.  A container opened in write mode has an empty directory for its whole
life: after any sequence of `addheader`, `write`, `finalize` and `additem` calls,
`headers_` is empty, and `header<T>(name)` and `read_static<T>(name)` throw "Header
not found" for every `T` and every name, the names just added included. -/
theorem write_mode_directory_empty (ops : List WriteOp) (disk : Option (List Byte)) (fuel : Nat)
    (c0 : ConfigCreator) (hopen : ConfigCreator.open disk .Write fuel = some (.ok c0)) (ty : Ty)
    (name : List Byte) :
    (runOps (c0, []) ops).1.headers_ = [] ∧
      ((runOps (c0, []) ops).1.header ty name).1 = .error .headerNotFound ∧
      ((runOps (c0, []) ops).1.read_static ty name).1 = .error .headerNotFound := by
  have h0 : c0.headers_ = [] := by
    rw [open_write] at hopen
    simp only [Option.some.injEq, Except.ok.injEq] at hopen
    rw [← hopen]
  have hdir : (runOps (c0, []) ops).1.headers_ = [] := by rw [runOps_headers, h0]
  have hfind : find_header (runOps (c0, []) ops).1.headers_ name = none := by
    rw [hdir]
    rfl
  refine ⟨hdir, (header_notFound_iff _ ty name).mpr hfind, ?_⟩
  unfold ConfigCreator.read_static ConfigCreator.header
  rw [hfind]

/-- The empty-directory theorem after the calls of `src/example.cpp`, asked for the
header `"list"` that was just added and finalized. -/
theorem write_mode_directory_empty_witness :
    (runOps ({ file_ := wstream MAGIC, mode_ := .Write, headers_ := [] }, []) example_ops).1.headers_ = [] ∧
      ((runOps ({ file_ := wstream MAGIC, mode_ := .Write, headers_ := [] }, []) example_ops).1.header
        .text str_list).1 = .error .headerNotFound ∧
      ((runOps ({ file_ := wstream MAGIC, mode_ := .Write, headers_ := [] }, []) example_ops).1.read_static
        .text str_list).1 = .error .headerNotFound :=
  write_mode_directory_empty example_ops none 0 _ (open_write none 0) .text str_list

set_option maxRecDepth 8000 in
theorem example_ops_file :
    (runOps ({ file_ := wstream MAGIC, mode_ := .Write, headers_ := [] }, []) example_ops).1.close
      = layout [hdr_item1, hdr_item_str, hdr_list] := by
  rfl

/-! ## Cursor bounds -/

theorem readRounds_succ_state (it : HeaderIterator) (f : FStream) (k : Nat) :
    (readRounds it f (k + 1)).2 = (readRounds (it.read f).2.1 (it.read f).2.2 k).2 := rfl

theorem rounds_invariant (Inv : HeaderIterator → FStream → Prop)
    (hstep : ∀ it f, Inv it f → Inv (it.read f).2.1 (it.read f).2.2 ∧
      it.offset_ ≤ (it.read f).2.1.offset_ ∧ (it.read f).2.1.data_size_ = it.data_size_)
    (hbound : ∀ it f, Inv it f → it.offset_ ≤ it.data_size_) :
    ∀ k it f, Inv it f → cursorBounds it f k := by
  intro k
  induction k with
  | zero =>
    intro it f h
    obtain ⟨_, h2, _⟩ := hstep it f h
    exact ⟨hbound it f h, rfl, h2⟩
  | succ k ih =>
    intro it f h
    obtain ⟨h1, _, h3⟩ := hstep it f h
    obtain ⟨i1, i2, i3⟩ := ih (it.read f).2.1 (it.read f).2.2 h1
    unfold cursorBounds
    rw [readRounds_succ_state it f (k + 1), readRounds_succ_state it f k]
    exact ⟨i1, i2.trans h3, i3⟩

theorem read_fixed_state (w ds dsz off sp : Nat) (wm : Bool) (f : FStream) (hn : off < dsz) :
    (HeaderIterator.read
        { ty := .fixed w, data_start_ := ds, data_size_ := dsz, offset_ := off, write_mode_ := wm,
          size_pos_ := sp } f).2.1
      = { ty := .fixed w, data_start_ := ds, data_size_ := dsz, offset_ := (off + w) % 2 ^ 64,
          write_mode_ := wm, size_pos_ := sp } := by
  simp [HeaderIterator.read, HeaderIterator.next, hn]

theorem fixed_inv_step (w : Nat) (it : HeaderIterator) (f : FStream) (h : FixedCursorInv w it f) :
    FixedCursorInv w (it.read f).2.1 (it.read f).2.2 ∧ it.offset_ ≤ (it.read f).2.1.offset_ ∧
      (it.read f).2.1.data_size_ = it.data_size_ := by
  obtain ⟨ty, ds, dsz, off, wm, sp⟩ := it
  obtain ⟨hty, hle, hdvd, hlt⟩ := h
  simp only at hty hle hdvd hlt
  subst hty
  by_cases hn : off < dsz
  · have hw : w ≤ dsz - off := Nat.le_of_dvd (by omega) hdvd
    have hmod : (off + w) % 2 ^ 64 = off + w := Nat.mod_eq_of_lt (by omega)
    have hdvd2 : w ∣ dsz - (off + w) := by
      have : dsz - (off + w) = (dsz - off) - w := by omega
      rw [this]
      exact Nat.dvd_sub' hdvd (dvd_refl w)
    rw [read_fixed_state w ds dsz off sp wm f hn, hmod]
    refine ⟨⟨rfl, ?_, hdvd2, hlt⟩, ?_, rfl⟩
    · simp only
      omega
    · simp only
      omega
  · have hnext : HeaderIterator.next
        { ty := .fixed w, data_start_ := ds, data_size_ := dsz, offset_ := off, write_mode_ := wm,
          size_pos_ := sp } = false := by
      simp [HeaderIterator.next, hn]
    rw [read_exhausted _ f hnext]
    exact ⟨⟨rfl, hle, hdvd, hlt⟩, Nat.le_refl _, rfl⟩

theorem text_inv_step (it : HeaderIterator) (f : FStream) (h : TextCursorInv it f) :
    TextCursorInv (it.read f).2.1 (it.read f).2.2 ∧ it.offset_ ≤ (it.read f).2.1.offset_ ∧
      (it.read f).2.1.data_size_ = it.data_size_ := by
  obtain ⟨ty, ds, dsz, off, wm, sp⟩ := it
  obtain ⟨bs, X, Y, p, vals, hf, hty, hbs, hX, hsz, hb⟩ := h
  simp only at hty hX hsz
  subst hty hf
  cases vals with
  | nil =>
    simp only [List.map_nil, List.flatten_nil, List.length_nil, Nat.add_zero] at hsz
    have hnext : HeaderIterator.next
        { ty := .text, data_start_ := ds, data_size_ := dsz, offset_ := off, write_mode_ := wm,
          size_pos_ := sp } = false := by
      simp [HeaderIterator.next, hsz]
    rw [read_exhausted _ _ hnext]
    exact ⟨⟨bs, X, Y, p, [], rfl, rfl, hbs, hX, by simpa using hsz, hb⟩, Nat.le_refl _, rfl⟩
  | cons v vs =>
    simp only [List.map_cons, List.flatten_cons, List.length_append] at hbs hsz
    have hpos := encodeValue_length_pos .text v rfl
    have hr := read_value_rstream .text bs X v ((vs.map (encodeValue .text)).flatten ++ Y) p ds dsz off sp wm
      rfl (by rw [hbs]; simp only [List.append_assoc]) hX (by omega) hb
    rw [hr]
    refine ⟨⟨bs, X ++ encodeValue .text v, Y, p, vs, rfl, rfl, ?_, ?_, ?_, hb⟩, ?_, rfl⟩
    · rw [hbs]
      simp only [List.append_assoc]
    · simp only [List.length_append]
      omega
    · simp only
      omega
    · simp only
      omega

theorem fromLe64_lt_pow (bs : List Byte) : fromLe64 bs < 256 ^ bs.length := by
  induction bs with
  | nil => simp [fromLe64]
  | cons b rest ih =>
    have hb : b.val < 256 := b.isLt
    simp only [fromLe64, List.length_cons, Nat.pow_succ]
    omega

theorem fromLe64_lt (bs : List Byte) (h : bs.length ≤ 8) : fromLe64 bs < 2 ^ 64 := by
  have h1 := fromLe64_lt_pow bs
  have h2 : 256 ^ bs.length ≤ 256 ^ 8 := Nat.pow_le_pow_right (by decide) h
  have h3 : (256 : Nat) ^ 8 = 2 ^ 64 := by norm_num
  omega

theorem stream_read_length_le (f : FStream) (n : Nat) : (f.read n).1.length ≤ n := by
  unfold FStream.read
  simp only
  split
  · simp
  · have hgot : (match f.mode with
        | .Read => (f.bytes.drop f.pos).take n
        | .Write => ([] : List Byte)).length ≤ n := by
      cases f.mode
      · simp [List.length_take]
      · simp
    split <;> exact hgot

theorem parse_headers_data_size (fuel : Nat) (f : FStream) (acc : List HeaderInfo)
    (hacc : ∀ h ∈ acc, h.data_size < 2 ^ 64) :
    ∀ r, parse_headers fuel f acc = some r → ∀ h ∈ r.2.2, h.data_size < 2 ^ 64 := by
  induction fuel generalizing f acc with
  | zero =>
    intro r h
    simp [parse_headers] at h
  | succ k ih =>
    intro r h
    unfold parse_headers at h
    simp only at h
    split at h
    · split at h
      · cases h
        exact hacc
      · cases h
        exact hacc
    · split at h
      · cases h
        exact hacc
      · split at h
        · cases h
          exact hacc
        · split at h
          · cases h
            exact hacc
          · refine ih _ _ ?_ r h
            intro x hx
            rcases List.mem_append.mp hx with hx | hx
            · exact hacc x hx
            · simp only [List.mem_singleton] at hx
              subst hx
              exact fromLe64_lt _ (Nat.le_trans (stream_read_length_le _ 8) (Nat.le_refl 8))

theorem open_read_invariants (content : List Byte) (fuel : Nat) (cr : ConfigCreator)
    (h : ConfigCreator.open (some content) .Read fuel = some (.ok cr)) :
    cr.mode_ = .Read ∧ ∀ x ∈ cr.headers_, x.data_size < 2 ^ 64 := by
  rw [open_read_eq] at h
  split at h
  · cases h
  · cases hp : parse_headers fuel ((rstream content 0).read 3).2 [] with
    | none => simp [hp] at h
    | some r =>
      have hd := parse_headers_data_size fuel _ [] (fun x hx => absurd hx (List.not_mem_nil x)) r hp
      obtain ⟨res, f1, dir⟩ := r
      cases res with
      | error e => simp [hp] at h
      | ok u =>
        simp only [hp, Option.some.injEq, Except.ok.injEq] at h
        subst h
        exact ⟨rfl, hd⟩

theorem find_header_mem (hs : List HeaderInfo) (name : List Byte) (h : HeaderInfo)
    (hf : find_header hs name = some h) : h ∈ hs := by
  induction hs with
  | nil => simp [find_header] at hf
  | cons x rest ih =>
    unfold find_header at hf
    split at hf
    · simp only [Option.some.injEq] at hf
      subst hf
      exact List.mem_cons_self _ _
    · exact List.mem_cons_of_mem _ (ih hf)

theorem header_fixed_ok (c : ConfigCreator) (w : Nat) (name : List Byte) (it : HeaderIterator)
    (hit : (c.header (.fixed w) name).1 = .ok it) :
    ∃ h, find_header c.headers_ name = some h ∧ h.data_size % w = 0 ∧
      it = HeaderIterator.new (.fixed w) h.data_offset h.data_size c.mode_ := by
  unfold ConfigCreator.header at hit
  cases hf : find_header c.headers_ name with
  | none =>
    rw [hf] at hit
    cases hit
  | some h =>
    rw [hf] at hit
    simp only at hit
    split at hit
    · cases hit
    · rename_i hdiv
      simp only [Except.ok.injEq] at hit
      exact ⟨h, rfl, by simpa using hdiv, hit.symm⟩

/-- C15, as stated, fails.  `mistyped_file` holds one header of 8 payload bytes (the
number 100).  A text cursor on it takes these bytes as a length: after one `read()`
its offset is 108, above its `data_size_` of 8. -/
theorem cursor_bound_counterexample :
    ∃ cr it, ConfigCreator.open (some mistyped_file) .Read 2 = some (.ok cr) ∧
      cr.header .text str_item1 = (.ok it, cr) ∧
      (readRounds it cr.file_ 1).2.1.offset_ = 108 ∧ (readRounds it cr.file_ 1).2.1.data_size_ = 8 ∧
      ¬ (readRounds it cr.file_ 1).2.1.offset_ ≤ (readRounds it cr.file_ 1).2.1.data_size_ := by
  have h1 : (readRounds
      { ty := .text, data_start_ := 24, data_size_ := 8, offset_ := 0, write_mode_ := false, size_pos_ := 0 }
      (rstream mistyped_file 32) 1).2.1.offset_ = 108 := rfl
  have h2 : (readRounds
      { ty := .text, data_start_ := 24, data_size_ := 8, offset_ := 0, write_mode_ := false, size_pos_ := 0 }
      (rstream mistyped_file 32) 1).2.1.data_size_ = 8 := rfl
  refine ⟨{ file_ := rstream mistyped_file 32, mode_ := .Read,
            headers_ := [{ name := str_item1, data_size := 8, data_offset := 24 }] },
    { ty := .text, data_start_ := 24, data_size_ := 8, offset_ := 0, write_mode_ := false, size_pos_ := 0 },
    rfl, rfl, h1, h2, ?_⟩
  rw [h1, h2]
  decide

/-- C15, amended.  For every container opened in read mode and every cursor returned
by `header<T>(name)` with `T` fixed-width, after each number `k` of `read()` calls the
offset is at most `data_size_` (which never changes) and the next call does not
decrease it, whatever the file holds.  For a text cursor the same holds when the
header was written through a text write cursor, so that its payload is a sequence of
length-prefixed values, in a file shorter than 2^63 bytes. -/
theorem cursor_bounds (k : Nat) :
    (∀ (content : List Byte) (fuel : Nat) (cr : ConfigCreator) (w : Nat) (name : List Byte)
        (it : HeaderIterator),
        ConfigCreator.open (some content) .Read fuel = some (.ok cr) →
        (cr.header (.fixed w) name).1 = .ok it → cursorBounds it cr.file_ k) ∧
      (∀ (pre post : List HeaderSpec) (n : List Byte) (vals : List (List Byte)) (fuel : Nat)
        (cr : ConfigCreator) (it : HeaderIterator),
        (∀ x ∈ pre, x.name ≠ n) →
        (layout (pre ++ { name := n, ty := .text, values := vals } :: post)).length < 2 ^ 63 →
        ConfigCreator.open (some (layout (pre ++ { name := n, ty := .text, values := vals } :: post)))
          .Read fuel = some (.ok cr) →
        (cr.header .text n).1 = .ok it → cursorBounds it cr.file_ k) := by
  constructor
  · intro content fuel cr w name it hopen hit
    obtain ⟨hmode, hsizes⟩ := open_read_invariants content fuel cr hopen
    obtain ⟨h, hfind, hdiv, hnew⟩ := header_fixed_ok cr w name it hit
    have hlt := hsizes h (find_header_mem _ _ _ hfind)
    apply rounds_invariant (FixedCursorInv w) (fixed_inv_step w)
      (fun it f hinv => hinv.2.1) k it cr.file_
    rw [hnew, hmode]
    exact ⟨rfl, Nat.zero_le _, by simpa [HeaderIterator.new] using Nat.dvd_of_mod_eq_zero hdiv, hlt⟩
  · intro pre post n vals fuel cr it hname hsize hopen hit
    have hfuel : (pre ++ { name := n, ty := .text, values := vals } :: post).length < fuel := by
      cases hlt : decide ((pre ++ { name := n, ty := .text, values := vals } :: post).length < fuel) with
      | true => exact of_decide_eq_true hlt
      | false =>
        exfalso
        have hge : fuel ≤ (pre ++ { name := n, ty := .text, values := vals } :: post).length := by
          have := of_decide_eq_false hlt
          omega
        obtain ⟨j, hj⟩ := Nat.exists_eq_add_of_le hge
        have hpre := parse_headers_whole_records
          ((pre ++ { name := n, ty := .text, values := vals } :: post).take fuel) MAGIC
          ((((pre ++ { name := n, ty := .text, values := vals } :: post).drop fuel).map record).flatten) [] 0
          (by
            have : MAGIC ++ ((((pre ++ { name := n, ty := .text, values := vals } :: post).take fuel).map
                record).flatten) ++ ((((pre ++ { name := n, ty := .text, values := vals } :: post).drop
                fuel).map record).flatten)
                = layout (pre ++ { name := n, ty := .text, values := vals } :: post) := by
              rw [List.append_assoc, ← List.flatten_append, ← List.map_append, List.take_append_drop]
              rfl
            rw [this]
            exact hsize)
        have hlen : ((pre ++ { name := n, ty := .text, values := vals } :: post).take fuel).length + 0
            = fuel := by
          rw [List.length_take]
          omega
        rw [hlen] at hpre
        have hfile : MAGIC ++ ((((pre ++ { name := n, ty := .text, values := vals } :: post).take fuel).map
            record).flatten) ++ ((((pre ++ { name := n, ty := .text, values := vals } :: post).drop
            fuel).map record).flatten)
            = layout (pre ++ { name := n, ty := .text, values := vals } :: post) := by
          rw [List.append_assoc, ← List.flatten_append, ← List.map_append, List.take_append_drop]
          rfl
        rw [hfile] at hpre
        have e := read_rstream (layout (pre ++ { name := n, ty := .text, values := vals } :: post)) [] MAGIC
          (((pre ++ { name := n, ty := .text, values := vals } :: post).map record).flatten) 0 3 rfl rfl rfl
        rw [open_read_eq, e] at hopen
        simp only [fail_rstream, ne_eq, not_true_eq_false, decide_False, Bool.or_self, Bool.false_eq_true,
          if_false, Nat.zero_add] at hopen
        have h3 : MAGIC.length = 3 := rfl
        rw [h3] at hpre
        rw [hpre] at hopen
        simp [parse_headers] at hopen
    have hopen2 := open_read_layout (pre ++ { name := n, ty := .text, values := vals } :: post) fuel hfuel hsize
    rw [hopen2] at hopen
    simp only [Option.some.injEq, Except.ok.injEq] at hopen
    subst hopen
    have hfind := find_header_entriesFrom pre { name := n, ty := .text, values := vals } post 3 hname
    have hsplit := layout_payload_split pre { name := n, ty := .text, values := vals } post
    have hnew := header_ok_of_find _ .text n _ hfind it hit
    apply rounds_invariant TextCursorInv text_inv_step ?_ k it _ ?_
    · intro it2 f2 hinv
      obtain ⟨_, _, _, _, _, _, _, _, _, hsz, _⟩ := hinv
      omega
    · rw [hnew]
      refine ⟨_, _, _, _, vals, rfl, rfl, hsplit, ?_, ?_, hsize⟩
      · simp only [HeaderIterator.new, List.length_append, le64_length]
        have : MAGIC.length = 3 := rfl
        omega
      · simp [HeaderIterator.new, payload]

/-- The amended C15 at the reopened example file: the 8-byte cursor of `"item1"` and
the text cursor of `"list"`, after 2 calls. -/
theorem cursor_bounds_witness :
    cursorBounds (HeaderIterator.new (.fixed 8) 24 8 .Read) example_container.file_ 2 ∧
      cursorBounds example_cursor example_container.file_ 2 :=
  ⟨(cursor_bounds 2).1 (layout [hdr_item1, hdr_item_str, hdr_list]) 4 example_container 8 str_item1 _
      example_container_opened rfl,
   (cursor_bounds 2).2 [hdr_item1, hdr_item_str] [] str_list [str_str1, str_str2, str_something] 4
      example_container example_cursor (by decide) example_layout_small example_container_opened rfl⟩

/-! ## Two live write cursors -/

theorem scheduleBytes_length (tyA tyB : Ty) (s : List (Bool × List Byte)) :
    (scheduleBytes tyA tyB s).length = writtenThrough tyA true s + writtenThrough tyB false s := by
  induction s with
  | nil => rfl
  | cons x rest ih =>
    obtain ⟨who, v⟩ := x
    simp only [scheduleBytes, writtenThrough] at ih ⊢
    cases who <;>
      simp [List.filter_cons, ih] <;> omega

theorem scheduleBytes_cons (tyA tyB : Ty) (x : Bool × List Byte) (s : List (Bool × List Byte)) :
    scheduleBytes tyA tyB (x :: s)
      = encodeValue (if x.1 then tyA else tyB) x.2 ++ scheduleBytes tyA tyB s := by
  simp [scheduleBytes]

theorem length_le_scheduleBytes (tyA tyB : Ty) (s : List (Bool × List Byte)) (x : Bool × List Byte)
    (hx : x ∈ s) : x.2.length ≤ (scheduleBytes tyA tyB s).length := by
  induction s with
  | nil => cases hx
  | cons y rest ih =>
    rw [scheduleBytes_cons, List.length_append]
    rcases List.mem_cons.mp hx with h | h
    · subst h
      have := encodeValue_length_le (if x.1 then tyA else tyB) x.2
      omega
    · have := ih h
      omega

theorem writeTwo_wstream (s : List (Bool × List Byte)) (a b : HeaderIterator) (W : List Byte)
    (hv : ∀ x ∈ s, x.2.length < 2 ^ 64) :
    ∃ oa ob, writeTwo a b (wstream W) s
      = ({ a with offset_ := oa }, { b with offset_ := ob }, wstream (W ++ scheduleBytes a.ty b.ty s)) := by
  induction s generalizing a b W with
  | nil => exact ⟨a.offset_, b.offset_, by simp [writeTwo, scheduleBytes]⟩
  | cons x rest ih =>
    obtain ⟨who, v⟩ := x
    have hvv : v.length < 2 ^ 64 := hv (who, v) (List.mem_cons_self _ _)
    have hrest : ∀ y ∈ rest, y.2.length < 2 ^ 64 := fun y hy => hv y (List.mem_cons_of_mem _ hy)
    cases who with
    | true =>
      obtain ⟨o, ho⟩ := write_fst a (wstream W) v
      obtain ⟨oa, ob, h⟩ := ih { a with offset_ := o } b (W ++ encodeValue a.ty v) hrest
      refine ⟨oa, ob, ?_⟩
      simp only [writeTwo, ho, write_snd_wstream a W v hvv, h, scheduleBytes_cons, if_true,
        List.append_assoc]
    | false =>
      obtain ⟨o, ho⟩ := write_fst b (wstream W) v
      obtain ⟨oa, ob, h⟩ := ih a { b with offset_ := o } (W ++ encodeValue b.ty v) hrest
      refine ⟨oa, ob, ?_⟩
      simp only [writeTwo, ho, write_snd_wstream b W v hvv, h, scheduleBytes_cons, Bool.false_eq_true,
        if_false, List.append_assoc]

theorem finalize_wstream_at (ty : Ty) (A P : List Byte) (ds dsz o sp : Nat) (hsp : sp = A.length)
    (hds : ds = A.length + 8) (h : (A ++ le64 0 ++ P).length < 2 ^ 63) (z : List Byte) (hz : z = le64 0) :
    HeaderIterator.finalize
        { ty := ty, data_start_ := ds, data_size_ := dsz, offset_ := o, write_mode_ := true, size_pos_ := sp }
        (wstream (A ++ z ++ P))
      = ({ ty := ty, data_start_ := ds, data_size_ := P.length, offset_ := o, write_mode_ := false,
           size_pos_ := sp }, wstream (A ++ le64 P.length ++ P)) := by
  subst hsp hds hz
  exact finalize_wstream ty A P dsz o h

theorem two_writer_run (bs nameA nameB : List Byte) (dir : List HeaderInfo) (tyA tyB : Ty)
    (valsA : List (List Byte)) (sched : List (Bool × List Byte)) (aFirst : Bool)
    (hsize : bs.length + 8 + nameA.length + 8 + ((valsA.map (encodeValue tyA)).flatten).length + 8
      + nameB.length + 8 + (scheduleBytes tyA tyB sched).length < 2 ^ 63) :
    ∃ oa ob, twoWriterRun { file_ := wstream bs, mode_ := .Write, headers_ := dir } tyA nameA valsA tyB nameB
        sched aFirst
      = some
        ({ ty := tyA, data_start_ := (bs ++ le64 nameA.length ++ nameA).length + 8,
           data_size_ := ((valsA.map (encodeValue tyA)).flatten).length + (16 + nameB.length)
             + (scheduleBytes tyA tyB sched).length,
           offset_ := oa, write_mode_ := false, size_pos_ := (bs ++ le64 nameA.length ++ nameA).length },
         { ty := tyB,
           data_start_ := (bs ++ le64 nameA.length ++ nameA ++ le64 0 ++ (valsA.map (encodeValue tyA)).flatten
             ++ le64 nameB.length ++ nameB).length + 8,
           data_size_ := (scheduleBytes tyA tyB sched).length, offset_ := ob, write_mode_ := false,
           size_pos_ := (bs ++ le64 nameA.length ++ nameA ++ le64 0 ++ (valsA.map (encodeValue tyA)).flatten
             ++ le64 nameB.length ++ nameB).length },
         wstream (bs ++ le64 nameA.length ++ nameA
           ++ le64 (((valsA.map (encodeValue tyA)).flatten).length + (16 + nameB.length)
               + (scheduleBytes tyA tyB sched).length)
           ++ (valsA.map (encodeValue tyA)).flatten ++ le64 nameB.length ++ nameB
           ++ le64 (scheduleBytes tyA tyB sched).length ++ scheduleBytes tyA tyB sched)) := by
  generalize hEA : (valsA.map (encodeValue tyA)).flatten = EA at hsize ⊢
  generalize hSB : scheduleBytes tyA tyB sched = SB at hsize ⊢
  have hadd1 := addheader_wstream bs nameA dir tyA (by
    simp only [List.length_append, le64_length]
    omega)
  have hvalsA : ∀ v ∈ valsA, v.length < 2 ^ 64 := by
    intro v hv
    have := length_le_payload tyA valsA v hv
    rw [hEA] at this
    omega
  have hsched : ∀ x ∈ sched, x.2.length < 2 ^ 64 := by
    intro x hx
    have := length_le_scheduleBytes tyA tyB sched x hx
    rw [hSB] at this
    omega
  obtain ⟨o1, ho1⟩ := writeAll_fst valsA
    { ty := tyA, data_start_ := (bs ++ le64 nameA.length ++ nameA).length + 8, data_size_ := 0,
      offset_ := 0, write_mode_ := true, size_pos_ := (bs ++ le64 nameA.length ++ nameA).length }
    (wstream (bs ++ le64 nameA.length ++ nameA ++ le64 0))
  have hw1 := writeAll_snd_wstream valsA
    { ty := tyA, data_start_ := (bs ++ le64 nameA.length ++ nameA).length + 8, data_size_ := 0,
      offset_ := 0, write_mode_ := true, size_pos_ := (bs ++ le64 nameA.length ++ nameA).length }
    (bs ++ le64 nameA.length ++ nameA ++ le64 0) hvalsA
  simp only [hEA] at hw1
  have hadd2 := addheader_wstream (bs ++ le64 nameA.length ++ nameA ++ le64 0 ++ EA) nameB dir tyB (by
    simp only [List.length_append, le64_length]
    omega)
  obtain ⟨oa, ob, hw2⟩ := writeTwo_wstream sched
    { ty := tyA, data_start_ := (bs ++ le64 nameA.length ++ nameA).length + 8, data_size_ := 0,
      offset_ := o1, write_mode_ := true, size_pos_ := (bs ++ le64 nameA.length ++ nameA).length }
    { ty := tyB,
      data_start_ := (bs ++ le64 nameA.length ++ nameA ++ le64 0 ++ EA ++ le64 nameB.length ++ nameB).length + 8,
      data_size_ := 0, offset_ := 0, write_mode_ := true,
      size_pos_ := (bs ++ le64 nameA.length ++ nameA ++ le64 0 ++ EA ++ le64 nameB.length ++ nameB).length }
    (bs ++ le64 nameA.length ++ nameA ++ le64 0 ++ EA ++ le64 nameB.length ++ nameB ++ le64 0) hsched
  simp only [hSB] at hw2
  refine ⟨oa, ob, ?_⟩
  unfold twoWriterRun
  rw [hadd1]
  simp only [ho1, hw1, hadd2, hw2]
  -- the two orders of finalize
  have hQA : (EA ++ le64 nameB.length ++ nameB ++ le64 0 ++ SB).length
      = EA.length + (16 + nameB.length) + SB.length := by
    simp only [List.length_append, le64_length]
    omega
  have hQA2 : (EA ++ le64 nameB.length ++ nameB ++ le64 SB.length ++ SB).length
      = EA.length + (16 + nameB.length) + SB.length := by
    simp only [List.length_append, le64_length]
    omega
  cases aFirst with
  | true =>
    have fa := finalize_wstream_at tyA (bs ++ le64 nameA.length ++ nameA)
      (EA ++ le64 nameB.length ++ nameB ++ le64 0 ++ SB) ((bs ++ le64 nameA.length ++ nameA).length + 8) 0 oa
      (bs ++ le64 nameA.length ++ nameA).length rfl rfl (by
        simp only [List.length_append, le64_length]
        omega) (le64 0) rfl
    have fb := finalize_wstream_at tyB
      (bs ++ le64 nameA.length ++ nameA ++ le64 (EA.length + (16 + nameB.length) + SB.length) ++ EA
        ++ le64 nameB.length ++ nameB) SB
      ((bs ++ le64 nameA.length ++ nameA ++ le64 0 ++ EA ++ le64 nameB.length ++ nameB).length + 8) 0 ob
      (bs ++ le64 nameA.length ++ nameA ++ le64 0 ++ EA ++ le64 nameB.length ++ nameB).length
      (by simp only [List.length_append, le64_length])
      (by simp only [List.length_append, le64_length]) (by
        simp only [List.length_append, le64_length]
        omega) (le64 0) rfl
    rw [hQA] at fa
    simp only [List.append_assoc] at fa fb ⊢
    simp only [finalizeTwo, if_true, fa, fb]
  | false =>
    have fb := finalize_wstream_at tyB
      (bs ++ le64 nameA.length ++ nameA ++ le64 0 ++ EA ++ le64 nameB.length ++ nameB) SB
      ((bs ++ le64 nameA.length ++ nameA ++ le64 0 ++ EA ++ le64 nameB.length ++ nameB).length + 8) 0 ob
      (bs ++ le64 nameA.length ++ nameA ++ le64 0 ++ EA ++ le64 nameB.length ++ nameB).length rfl rfl (by
        simp only [List.length_append, le64_length]
        omega) (le64 0) rfl
    have fa := finalize_wstream_at tyA (bs ++ le64 nameA.length ++ nameA)
      (EA ++ le64 nameB.length ++ nameB ++ le64 SB.length ++ SB)
      ((bs ++ le64 nameA.length ++ nameA).length + 8) 0 oa
      (bs ++ le64 nameA.length ++ nameA).length rfl rfl (by
        simp only [List.length_append, le64_length]
        omega) (le64 0) rfl
    rw [hQA2] at fa
    simp only [List.append_assoc] at fa fb ⊢
    simp only [finalizeTwo, Bool.false_eq_true, if_false, fb, fa]

set_option maxRecDepth 8000 in
/-- C19, as stated, fails.  Header `"item str"` is added while the cursor of `"list"`
is live; `"str1"` was written through the first cursor, `"some str"` is written
through the second, then both are finalized.  The size backpatched for the second
header is 16, which is the encoded length of the one value written through it; only
the first header's size (52 instead of 12) is wrong. -/
theorem two_writers_counterexample :
    (runOps ({ file_ := wstream MAGIC, mode_ := .Write, headers_ := [] }, []) two_writer_ops).2.map
        (fun it => it.data_size_) = [52, 16] ∧
      (runOps ({ file_ := wstream MAGIC, mode_ := .Write, headers_ := [] }, []) two_writer_ops).1.close
        = MAGIC ++ le64 4 ++ str_list ++ le64 52 ++ encodeValue .text str_str1
            ++ le64 8 ++ str_item_str ++ le64 16 ++ encodeValue .text str_some_str ∧
      (encodeValue .text str_some_str).length = 16 ∧ (encodeValue .text str_str1).length = 12 := by
  exact ⟨rfl, rfl, rfl, rfl⟩

/-- C19, amended.  Header B is added while write cursor A is not finalized; `valsA`
were written through A before, the scheduled values are written through A and B
after, then both are finalized in either order.  The size backpatched for A is the
total encoded length of A's values plus the `16 + |nameB|` bytes of B's record head
plus the total encoded length of B's values, so it always differs from A's total.
The size backpatched for B is the total encoded length of B's values plus that of the
values written through A after B was added, so it differs from B's total exactly
when those are not empty.  The file holds these two sizes in the two size fields.
(Files are shorter than 2^63 bytes.) -/
theorem two_live_writers (bs nameA nameB : List Byte) (dir : List HeaderInfo) (tyA tyB : Ty)
    (valsA : List (List Byte)) (sched : List (Bool × List Byte)) (aFirst : Bool)
    (hsize : bs.length + 8 + nameA.length + 8 + ((valsA.map (encodeValue tyA)).flatten).length + 8
      + nameB.length + 8 + (scheduleBytes tyA tyB sched).length < 2 ^ 63) :
    ∃ a3 b3 f3,
      twoWriterRun { file_ := wstream bs, mode_ := .Write, headers_ := dir } tyA nameA valsA tyB nameB
        sched aFirst = some (a3, b3, f3) ∧
      a3.data_size_ = (((valsA.map (encodeValue tyA)).flatten).length + writtenThrough tyA true sched)
        + (16 + nameB.length) + writtenThrough tyB false sched ∧
      b3.data_size_ = writtenThrough tyB false sched + writtenThrough tyA true sched ∧
      a3.data_size_ ≠ ((valsA.map (encodeValue tyA)).flatten).length + writtenThrough tyA true sched ∧
      (b3.data_size_ ≠ writtenThrough tyB false sched ↔ writtenThrough tyA true sched ≠ 0) ∧
      f3.bytes = bs ++ le64 nameA.length ++ nameA ++ le64 a3.data_size_
        ++ (valsA.map (encodeValue tyA)).flatten ++ le64 nameB.length ++ nameB ++ le64 b3.data_size_
        ++ scheduleBytes tyA tyB sched := by
  obtain ⟨oa, ob, hrun⟩ := two_writer_run bs nameA nameB dir tyA tyB valsA sched aFirst hsize
  have hlen := scheduleBytes_length tyA tyB sched
  refine ⟨_, _, _, hrun, ?_, ?_, ?_, ?_, rfl⟩
  · simp only [hlen]
    omega
  · simp only [hlen]
    omega
  · simp only [hlen]
    omega
  · simp only [hlen]
    omega

/-- The amended C19 where both sizes come out wrong: `"str1"` is written through the
first cursor after the second header was added. -/
theorem two_live_writers_witness :
    ∃ a3 b3 f3,
      twoWriterRun { file_ := wstream MAGIC, mode_ := .Write, headers_ := [] } .text str_list [] .text
        str_item_str [(true, str_str1), (false, str_some_str)] true = some (a3, b3, f3) ∧
      a3.data_size_ = ((([] : List (List Byte)).map (encodeValue .text)).flatten).length
        + writtenThrough .text true [(true, str_str1), (false, str_some_str)]
        + (16 + str_item_str.length) + writtenThrough .text false [(true, str_str1), (false, str_some_str)] ∧
      b3.data_size_ = writtenThrough .text false [(true, str_str1), (false, str_some_str)]
        + writtenThrough .text true [(true, str_str1), (false, str_some_str)] ∧
      a3.data_size_ ≠ ((([] : List (List Byte)).map (encodeValue .text)).flatten).length
        + writtenThrough .text true [(true, str_str1), (false, str_some_str)] ∧
      (b3.data_size_ ≠ writtenThrough .text false [(true, str_str1), (false, str_some_str)]
        ↔ writtenThrough .text true [(true, str_str1), (false, str_some_str)] ≠ 0) ∧
      f3.bytes = MAGIC ++ le64 str_list.length ++ str_list ++ le64 a3.data_size_
        ++ (([] : List (List Byte)).map (encodeValue .text)).flatten ++ le64 str_item_str.length
        ++ str_item_str ++ le64 b3.data_size_
        ++ scheduleBytes .text .text [(true, str_str1), (false, str_some_str)] :=
  two_live_writers MAGIC str_list str_item_str [] .text .text [] [(true, str_str1), (false, str_some_str)]
    true (by
      have h : MAGIC.length + 8 + str_list.length + 8
        + ((([] : List (List Byte)).map (encodeValue .text)).flatten).length + 8 + str_item_str.length + 8
        + (scheduleBytes .text .text [(true, str_str1), (false, str_some_str)]).length = 75 := rfl
      rw [h]
      norm_num)

end vidzhet
